import Mathlib

set_option maxHeartbeats 1000000

namespace FlowLens

/-!
Shallow embedding of the flow-lens core: the flow comparator
(`src/main/flow_comparator.ts`), a spec-modelled flow parser (the repository
only ships the parser's tests and callers), and the abstract UML generator
(`src/main/uml_generator.ts`).
-/

/-! ## JavaScript value trees

Parsed flow nodes are plain JSON-like objects produced by an XML
deserializer: trees of objects whose leaves are primitives.  `Prim` carries
the primitive values that occur in parsed flows (the deserializer renders
numbers and booleans as strings, but we keep separate constructors so that
`===` on primitives is ordinary decidable equality).  Cyclic or shared
references do not occur in freshly parsed data, so values are trees. -/

inductive Prim where
  | str (s : String)
  | num (s : String)
  | bool (b : Bool)
  | null
  | undef
deriving DecidableEq

inductive Val where
  | prim (p : Prim)
  | obj (fields : List (String × Val))

/-- `typeof v === "object" && v !== null`: true exactly for non-null objects.
(`typeof null` is `"object"` in JavaScript, but every use site below guards
with a non-null check, so `Prim.null` counts as not-an-object here.) -/
def Val.isObj : Val → Bool
  | .obj _ => true
  | .prim _ => false

/-- JavaScript `===` restricted to the cases `areEqual` reaches in its
non-recursive branch: at most one operand is a non-null object there, and an
object is never `===` to a primitive.  (Two distinct object references are
never `===` either, which is the value this returns on two objects.) -/
def jsStrictEq : Val → Val → Bool
  | .prim a, .prim b => a == b
  | _, _ => false

/-- `obj[key]` on the field list of a JavaScript object: the value bound to
`key`, if any.  Object keys are unique, so first-match lookup is exact. -/
def getField (k : String) : List (String × Val) → Option Val
  | [] => none
  | (k0, v) :: rest => if k0 = k then some v else getField k rest

mutual
/-- `areEqual` from `flow_comparator.ts`: recursive structural comparison.
Two primitives compare by `===`; two non-null objects compare by key-count
and then key-by-key (a key missing from the second object reads as
`undefined`); any other combination is not equal.  The source's leading
reference-equality shortcut (`node1 === node2`) is subsumed: on primitives it
is the `==` below, and two tree values that are literally the same reference
are structurally equal as well. -/
def areEqual : Val → Val → Bool
  | .prim a, .prim b => a == b
  | .obj f1, .obj f2 => f1.length == f2.length && areEqualFields f1 f2
  | _, _ => false

/-- The `for (const key of keys1)` loop of `areEqual`: for each key of the
first object, fetch `obj2[key]` (missing keys read as `undefined`), recurse
when both values are non-null objects, otherwise require `===`. -/
def areEqualFields : List (String × Val) → List (String × Val) → Bool
  | [], _ => true
  | (k, v1) :: rest, f2 =>
      (let v2 := (getField k f2).getD (Val.prim Prim.undef)
       if v1.isObj && v2.isObj then areEqual v1 v2 else jsStrictEq v1 v2)
      && areEqualFields rest f2
end

/-- `nodupB l` : the strings in `l` are pairwise distinct (JavaScript object
keys and `Map` keys are unique). -/
def nodupB : List String → Bool
  | [] => true
  | k :: ks => (!ks.contains k) && nodupB ks

mutual
/-- Well-formedness of a value as a JavaScript object tree: every object
level has pairwise-distinct keys.  Every value reachable from a real parsed
flow satisfies this. -/
def Val.wf : Val → Bool
  | .prim _ => true
  | .obj f => nodupB (f.map Prod.fst) && wfFields f

def wfFields : List (String × Val) → Bool
  | [] => true
  | (_, v) :: rest => v.wf && wfFields rest
end

/-! ## The comparator's data model (`flow_comparator.ts`)

`compareFlows` receives two `ParsedFlow` records and touches them only
through `nameToNode` (a `Map` from node name to node object) and through the
single mutable field `diffStatus` of each node.  A node is modelled as its
immutable field tree (everything except `diffStatus`, as produced by the
parser) together with its current `diffStatus`. -/

inductive DiffStatus where
  | ADDED
  | DELETED
  | MODIFIED
deriving DecidableEq

/-- The string value of each `DiffStatus` enum member, as it would appear as
an object property when the comparator has assigned it. -/
def DiffStatus.toStr : DiffStatus → String
  | .ADDED => "ADDED"
  | .DELETED => "DELETED"
  | .MODIFIED => "MODIFIED"

structure FlowNode where
  /-- Every property of the node object except `diffStatus`. -/
  fields : List (String × Val)
  diffStatus : Option DiffStatus

/-- The node as the JavaScript object `areEqual` sees: its parsed fields,
followed by the `diffStatus` property when one has been assigned (property
assignment appends a new key; freshly parsed nodes have no such key). -/
def FlowNode.toVal (n : FlowNode) : Val :=
  match n.diffStatus with
  | none => .obj n.fields
  | some d => .obj (n.fields ++ [("diffStatus", .prim (.str d.toStr))])

/-- `areEqual(oldNode, newNode)` on two flow nodes. -/
def areEqualNode (n1 n2 : FlowNode) : Bool :=
  areEqual n1.toVal n2.toVal

/-- A `Map<string, FlowNode>` in insertion order. -/
def NodeMap := List (String × FlowNode)

/-- `map.get(k)`. -/
def lookupN (k : String) : NodeMap → Option FlowNode
  | [] => none
  | (k0, v) :: rest => if k0 = k then some v else lookupN k rest

/-- `map.has(k)`. -/
def hasKeyN (k : String) (m : NodeMap) : Bool :=
  (lookupN k m).isSome

/-- Mutating the node object stored under `k`: the map keeps the same keys in
the same order and the binding of `k` now holds the updated node. -/
def updateN (k : String) (n : FlowNode) : NodeMap → NodeMap
  | [] => []
  | (k0, v) :: rest =>
      if k0 = k then (k0, n) :: rest else (k0, v) :: updateN k n rest

/-- `map.keys()` in insertion order. -/
def keysN (m : NodeMap) : List String :=
  m.map Prod.fst

structure Transition where
  src : String
  dst : String
  fault : Bool
  label : Option String
deriving DecidableEq

/-- The components of a `ParsedFlow` that the comparator's caller can
observe: the flow label, process type, start node, the per-kind node
sequences, the name index, and the transition sequence.  (`nodes` stands for
the seventeen per-kind arrays; the comparator never reads them.) -/
structure ParsedFlow where
  label : Option String
  processType : Option String
  start : Option FlowNode
  nodes : List (List FlowNode)
  nameToNode : Option NodeMap
  transitions : List Transition

/-- Which side of the comparison an assignment `node.diffStatus = s` landed
on (old graph or new graph). -/
inductive Side where
  | oldSide
  | newSide
deriving DecidableEq

/-- One `diffStatus` assignment performed by `compareFlows`, recorded for the
write-once analysis: the side, the map key of the node written, and the
status written. -/
structure Assign where
  side : Side
  key : String
  status : DiffStatus
deriving DecidableEq

/-- The first loop of `compareFlows`: for every key of the old map (in
insertion order), a key missing from the new map marks the old node
`DELETED`; a key present in both with structurally different nodes marks
both nodes `MODIFIED`.  Returns the two maps after the loop plus the list of
assignments performed, in order. -/
def markLoop1 : List String → NodeMap → NodeMap → NodeMap × NodeMap × List Assign
  | [], o, n => (o, n, [])
  | k :: ks, o, n =>
      match lookupN k o with
      | none => markLoop1 ks o n
      | some oldNode =>
          match lookupN k n with
          | none =>
              let r := markLoop1 ks (updateN k { oldNode with diffStatus := some .DELETED } o) n
              (r.1, r.2.1, ⟨.oldSide, k, .DELETED⟩ :: r.2.2)
          | some newNode =>
              if areEqualNode oldNode newNode then
                markLoop1 ks o n
              else
                let r := markLoop1 ks
                    (updateN k { oldNode with diffStatus := some .MODIFIED } o)
                    (updateN k { newNode with diffStatus := some .MODIFIED } n)
                (r.1, r.2.1, ⟨.oldSide, k, .MODIFIED⟩ :: ⟨.newSide, k, .MODIFIED⟩ :: r.2.2)

/-- The second loop of `compareFlows`: every key of the new map that the old
map does not have marks the new node `ADDED`. -/
def markLoop2 : List String → NodeMap → NodeMap → NodeMap × List Assign
  | [], _, n => (n, [])
  | k :: ks, o, n =>
      match lookupN k n with
      | none => markLoop2 ks o n
      | some newNode =>
          if hasKeyN k o then
            markLoop2 ks o n
          else
            let r := markLoop2 ks o (updateN k { newNode with diffStatus := some .ADDED } n)
            (r.1, ⟨.newSide, k, .ADDED⟩ :: r.2)

/-- `compareFlows` on the two name indexes (an absent index acts as an empty
map), with the assignment trace. -/
def compareFlowsCore (o n : NodeMap) : NodeMap × NodeMap × List Assign :=
  let r1 := markLoop1 (keysN o) o n
  let r2 := markLoop2 (keysN r1.2.1) r1.1 r1.2.1
  (r1.1, r2.1, r1.2.2 ++ r2.2)

/-- `compareFlows(oldFlow, newFlow)` from `flow_comparator.ts`: compares the
two graphs through their name indexes and sets the `diffStatus` of nodes in
place; every other component of both flows is untouched.  Modelled as
returning the two flows after the call. -/
def compareFlows (oldFlow newFlow : ParsedFlow) : ParsedFlow × ParsedFlow :=
  let o := oldFlow.nameToNode.getD []
  let n := newFlow.nameToNode.getD []
  let r := compareFlowsCore o n
  ({ oldFlow with nameToNode := oldFlow.nameToNode.map fun _ => r.1 },
   { newFlow with nameToNode := newFlow.nameToNode.map fun _ => r.2.1 })

/-- The assignment trace of a `compareFlows` call. -/
def compareFlowsTrace (oldFlow newFlow : ParsedFlow) : List Assign :=
  (compareFlowsCore (oldFlow.nameToNode.getD []) (newFlow.nameToNode.getD [])).2.2

/-- All nodes of the map are freshly parsed: no `diffStatus` assigned yet. -/
def freshMap (m : NodeMap) : Bool :=
  m.all fun p => p.2.diffStatus.isNone

/-- The map's keys are pairwise distinct (guaranteed for a `Map`). -/
def nodupKeys (m : NodeMap) : Bool :=
  nodupB (keysN m)

/-- The name index of a flow, an absent index reading as empty. -/
def mapOf (f : ParsedFlow) : NodeMap :=
  f.nameToNode.getD []

/-- All nodes of the map have well-formed field trees. -/
def wfMap (m : NodeMap) : Bool :=
  m.all fun p => (Val.obj p.2.fields).wf

/-! ## Reflexivity of the structural equality check -/

theorem mem_of_containsB {l : List String} {k : String} (h : l.contains k = true) :
    k ∈ l := by
  simpa using h

theorem getField_self {f : List (String × Val)}
    (hnd : nodupB (f.map Prod.fst) = true) :
    ∀ p ∈ f, getField p.1 f = some p.2 := by
  induction f with
  | nil => intro p hp; cases hp
  | cons hd tl ih =>
      intro p hp
      have hnd2 : (!(tl.map Prod.fst).contains hd.1 && nodupB (tl.map Prod.fst)) = true := by
        simpa [nodupB] using hnd
      obtain ⟨hc, hnd'⟩ := Bool.and_eq_true_iff.mp hnd2
      rcases List.mem_cons.mp hp with hp | hp
      · subst hp
        simp [getField]
      · have hmemk : p.1 ∈ tl.map Prod.fst := List.mem_map_of_mem Prod.fst hp
        have hk : hd.1 ≠ p.1 := by
          intro hkk
          rw [← hkk] at hmemk
          have : (tl.map Prod.fst).contains hd.1 = true := by
            simpa using hmemk
          rw [this] at hc
          simp at hc
        have htl : getField p.1 tl = some p.2 := ih hnd' p hp
        rcases hd with ⟨k0, v0⟩
        simp only at hk
        rw [getField, if_neg hk]
        exact htl

theorem wf_of_mem_fields {f : List (String × Val)} (h : wfFields f = true) :
    ∀ p ∈ f, Val.wf p.2 = true := by
  induction f with
  | nil => intro p hp; cases hp
  | cons hd tl ih =>
      intro p hp
      rcases hd with ⟨k0, v0⟩
      have h2 : (v0.wf && wfFields tl) = true := by simpa [wfFields] using h
      obtain ⟨h1, h2⟩ := Bool.and_eq_true_iff.mp h2
      rcases List.mem_cons.mp hp with hp | hp
      · rw [hp]; exact h1
      · exact ih h2 p hp

theorem sizeOf_lt_of_mem_fields {f : List (String × Val)} {p : String × Val}
    (hm : p ∈ f) : sizeOf p.2 < sizeOf (Val.obj f) := by
  induction f with
  | nil => cases hm
  | cons hd tl ih =>
      rcases List.mem_cons.mp hm with hm | hm
      · subst hm
        rcases p with ⟨k, v⟩
        simp
        omega
      · have := ih hm
        simp at this ⊢
        omega

theorem areEqualFields_of {f1 f2 : List (String × Val)}
    (hget : ∀ p ∈ f1, getField p.1 f2 = some p.2)
    (hrefl : ∀ p ∈ f1, areEqual p.2 p.2 = true) :
    areEqualFields f1 f2 = true := by
  induction f1 with
  | nil => simp [areEqualFields]
  | cons hd tl ih =>
      have hh := hget hd (by simp)
      have hr := hrefl hd (by simp)
      have htl : areEqualFields tl f2 = true :=
        ih (fun p hp => hget p (by simp [hp])) (fun p hp => hrefl p (by simp [hp]))
      rcases hd with ⟨k, v1⟩
      simp only [areEqualFields, Bool.and_eq_true]
      refine ⟨?_, htl⟩
      simp only at hh
      rw [hh]
      cases v1 with
      | obj g => simpa [Val.isObj] using hr
      | prim a => simp [Val.isObj, jsStrictEq]

/-- Structural equality is reflexive on well-formed object trees: two nodes
with identical content compare equal however they were constructed. -/
theorem areEqual_refl : ∀ (v : Val), v.wf = true → areEqual v v = true
  | .prim a, _ => by simp [areEqual]
  | .obj f, h => by
      obtain ⟨hnd, hwf⟩ := by simpa [Val.wf, Bool.and_eq_true] using h
      simp only [areEqual, Bool.and_eq_true, beq_self_eq_true, true_and]
      exact areEqualFields_of (getField_self hnd)
        (fun p hp => areEqual_refl p.2 (wf_of_mem_fields hwf p hp))
termination_by v => sizeOf v
decreasing_by
  exact sizeOf_lt_of_mem_fields hp

/-- On freshly parsed nodes the comparator's node equality is reflexive. -/
theorem areEqualNode_refl {n : FlowNode} (hf : n.diffStatus = none)
    (hw : (Val.obj n.fields).wf = true) : areEqualNode n n = true := by
  unfold areEqualNode FlowNode.toVal
  rw [hf]
  exact areEqual_refl _ hw

/-! ## Map update lemmas -/

theorem lookupN_updateN_ne {m : NodeMap} {k j : String} {n : FlowNode}
    (h : j ≠ k) : lookupN j (updateN k n m) = lookupN j m := by
  induction m with
  | nil => rfl
  | cons hd tl ih =>
      rcases hd with ⟨k0, v0⟩
      by_cases hk : k0 = k
      · subst hk
        have hj : ¬(k0 = j) := fun hh => h (hh.symm)
        simp [updateN, lookupN, hj]
      · by_cases hj : k0 = j
        · subst hj
          simp [updateN, lookupN, hk]
        · simp [updateN, lookupN, hk, hj, ih]

theorem lookupN_updateN_self {m : NodeMap} {k : String} {n x : FlowNode}
    (h : lookupN k m = some x) : lookupN k (updateN k n m) = some n := by
  induction m with
  | nil => simp [lookupN] at h
  | cons hd tl ih =>
      rcases hd with ⟨k0, v0⟩
      by_cases hk : k0 = k
      · simp [updateN, lookupN, hk]
      · rw [lookupN, if_neg hk] at h
        simp [updateN, lookupN, hk, ih h]

theorem keysN_updateN {m : NodeMap} {k : String} {n : FlowNode} :
    keysN (updateN k n m) = keysN m := by
  induction m with
  | nil => rfl
  | cons hd tl ih =>
      rcases hd with ⟨k0, v0⟩
      by_cases hk : k0 = k
      · simp [updateN, keysN, hk]
      · simpa [updateN, keysN, hk] using ih

theorem lookupN_none_iff {m : NodeMap} {k : String} :
    lookupN k m = none ↔ k ∉ keysN m := by
  induction m with
  | nil => simp [lookupN, keysN]
  | cons hd tl ih =>
      rcases hd with ⟨k0, v0⟩
      by_cases hk : k0 = k
      · subst hk
        simp [lookupN, keysN]
      · rw [lookupN, if_neg hk, ih]
        constructor
        · intro hm hmem
          rcases List.mem_cons.mp hmem with hmem | hmem
          · exact hk hmem.symm
          · exact hm hmem
        · intro hm hmem
          exact hm (List.mem_cons_of_mem _ hmem)

theorem lookupN_isSome_iff {m : NodeMap} {k : String} :
    (lookupN k m).isSome = true ↔ k ∈ keysN m := by
  rcases hx : lookupN k m with _ | x
  · simp [lookupN_none_iff.mp hx]
  · have : k ∈ keysN m := by
      by_contra hc
      rw [lookupN_none_iff.mpr hc] at hx
      cases hx
    simp [this]

/-! ## Behaviour of the two comparison loops -/

/-- Keys that the first loop does not visit keep their bindings, on both
sides. -/
theorem markLoop1_frame (ks : List String) (o n : NodeMap) {j : String}
    (hj : j ∉ ks) :
    lookupN j (markLoop1 ks o n).1 = lookupN j o ∧
    lookupN j (markLoop1 ks o n).2.1 = lookupN j n := by
  induction ks generalizing o n with
  | nil => exact ⟨rfl, rfl⟩
  | cons k ks ih =>
      have hjk : j ≠ k := fun h => hj (h ▸ List.mem_cons_self k ks)
      have hj' : j ∉ ks := fun h => hj (List.mem_cons_of_mem _ h)
      cases ho : lookupN k o with
      | none => simpa [markLoop1, ho] using ih o n hj'
      | some oldN =>
        cases hn : lookupN k n with
        | none =>
            have h := ih (updateN k { oldN with diffStatus := some .DELETED } o) n hj'
            rw [lookupN_updateN_ne hjk] at h
            simpa [markLoop1, ho, hn] using h
        | some newNode =>
          cases heq : areEqualNode oldN newNode with
          | true => simpa [markLoop1, ho, hn, heq] using ih o n hj'
          | false =>
              have h := ih (updateN k { oldN with diffStatus := some .MODIFIED } o)
                (updateN k { newNode with diffStatus := some .MODIFIED } n) hj'
              rw [lookupN_updateN_ne hjk, lookupN_updateN_ne hjk] at h
              simpa [markLoop1, ho, hn, heq] using h

/-- What the first loop leaves under a visited key: a key the new map lacks
gets its old node marked `DELETED`; a key present in both maps leaves both
nodes untouched when they are structurally equal and marks both `MODIFIED`
otherwise. -/
theorem markLoop1_mem (ks : List String) (o n : NodeMap) {j : String}
    (hks : nodupB ks = true) (hj : j ∈ ks) :
    lookupN j (markLoop1 ks o n).1 =
      (match lookupN j o, lookupN j n with
       | none, _ => none
       | some oldN, none => some { oldN with diffStatus := some .DELETED }
       | some oldN, some newN =>
           if areEqualNode oldN newN then some oldN
           else some { oldN with diffStatus := some .MODIFIED }) ∧
    lookupN j (markLoop1 ks o n).2.1 =
      (match lookupN j o, lookupN j n with
       | some oldN, some newN =>
           if areEqualNode oldN newN then some newN
           else some { newN with diffStatus := some .MODIFIED }
       | _, _ => lookupN j n) := by
  induction ks generalizing o n with
  | nil => cases hj
  | cons k ks ih =>
      have hks2 : (!ks.contains k && nodupB ks) = true := by simpa [nodupB] using hks
      obtain ⟨hkc, hks'⟩ := Bool.and_eq_true_iff.mp hks2
      have hkks : k ∉ ks := by
        intro hmem
        have : ks.contains k = true := by simpa using hmem
        rw [this] at hkc
        cases hkc
      rcases List.mem_cons.mp hj with hjk | hjm
      · subst hjk
        cases ho : lookupN j o with
        | none =>
            have h := markLoop1_frame ks o n hkks
            have e1 : markLoop1 (j :: ks) o n = markLoop1 ks o n := by
              simp [markLoop1, ho]
            rw [e1, h.1, h.2]
            simp [ho]
        | some oldN =>
          cases hn : lookupN j n with
          | none =>
              have h := markLoop1_frame ks
                (updateN j { oldN with diffStatus := some .DELETED } o) n hkks
              have e1 : (markLoop1 (j :: ks) o n).1 =
                  (markLoop1 ks (updateN j { oldN with diffStatus := some .DELETED } o) n).1 := by
                simp [markLoop1, ho, hn]
              have e2 : (markLoop1 (j :: ks) o n).2.1 =
                  (markLoop1 ks (updateN j { oldN with diffStatus := some .DELETED } o) n).2.1 := by
                simp [markLoop1, ho, hn]
              rw [e1, e2, h.1, h.2, lookupN_updateN_self ho]
              simp [ho, hn]
          | some newNode =>
            cases heq : areEqualNode oldN newNode with
            | true =>
                have h := markLoop1_frame ks o n hkks
                have e1 : markLoop1 (j :: ks) o n = markLoop1 ks o n := by
                  simp [markLoop1, ho, hn, heq]
                rw [e1, h.1, h.2]
                simp [ho, hn, heq]
            | false =>
                have h := markLoop1_frame ks
                  (updateN j { oldN with diffStatus := some .MODIFIED } o)
                  (updateN j { newNode with diffStatus := some .MODIFIED } n) hkks
                have e1 : (markLoop1 (j :: ks) o n).1 =
                    (markLoop1 ks (updateN j { oldN with diffStatus := some .MODIFIED } o)
                      (updateN j { newNode with diffStatus := some .MODIFIED } n)).1 := by
                  simp [markLoop1, ho, hn, heq]
                have e2 : (markLoop1 (j :: ks) o n).2.1 =
                    (markLoop1 ks (updateN j { oldN with diffStatus := some .MODIFIED } o)
                      (updateN j { newNode with diffStatus := some .MODIFIED } n)).2.1 := by
                  simp [markLoop1, ho, hn, heq]
                rw [e1, e2, h.1, h.2, lookupN_updateN_self ho, lookupN_updateN_self hn]
                simp [ho, hn, heq]
      · have hjk : j ≠ k := fun h => hkks (h ▸ hjm)
        cases ho : lookupN k o with
        | none => simpa [markLoop1, ho] using ih o n hks' hjm
        | some oldN =>
          cases hn : lookupN k n with
          | none =>
              have h := ih (updateN k { oldN with diffStatus := some .DELETED } o) n hks' hjm
              rw [lookupN_updateN_ne hjk] at h
              simpa [markLoop1, ho, hn] using h
          | some newNode =>
            cases heq : areEqualNode oldN newNode with
            | true => simpa [markLoop1, ho, hn, heq] using ih o n hks' hjm
            | false =>
                have h := ih (updateN k { oldN with diffStatus := some .MODIFIED } o)
                  (updateN k { newNode with diffStatus := some .MODIFIED } n) hks' hjm
                rw [lookupN_updateN_ne hjk, lookupN_updateN_ne hjk] at h
                simpa [markLoop1, ho, hn, heq] using h

/-- Keys the second loop does not visit keep their bindings. -/
theorem markLoop2_frame (ks : List String) (o n : NodeMap) {j : String}
    (hj : j ∉ ks) :
    lookupN j (markLoop2 ks o n).1 = lookupN j n := by
  induction ks generalizing n with
  | nil => rfl
  | cons k ks ih =>
      have hjk : j ≠ k := fun h => hj (h ▸ List.mem_cons_self k ks)
      have hj' : j ∉ ks := fun h => hj (List.mem_cons_of_mem _ h)
      cases hn : lookupN k n with
      | none => simpa [markLoop2, hn] using ih n hj'
      | some newNode =>
        cases hho : hasKeyN k o with
        | true => simpa [markLoop2, hn, hho] using ih n hj'
        | false =>
            have h := ih (updateN k { newNode with diffStatus := some .ADDED } n) hj'
            rw [lookupN_updateN_ne hjk] at h
            simpa [markLoop2, hn, hho] using h

/-- What the second loop leaves under a visited key: a key the old map lacks
gets its new node marked `ADDED`; every other binding is untouched. -/
theorem markLoop2_mem (ks : List String) (o n : NodeMap) {j : String}
    (hks : nodupB ks = true) (hj : j ∈ ks) :
    lookupN j (markLoop2 ks o n).1 =
      (match lookupN j n with
       | none => none
       | some newN =>
           if hasKeyN j o then some newN
           else some { newN with diffStatus := some .ADDED }) := by
  induction ks generalizing n with
  | nil => cases hj
  | cons k ks ih =>
      have hks2 : (!ks.contains k && nodupB ks) = true := by simpa [nodupB] using hks
      obtain ⟨hkc, hks'⟩ := Bool.and_eq_true_iff.mp hks2
      have hkks : k ∉ ks := by
        intro hmem
        have : ks.contains k = true := by simpa using hmem
        rw [this] at hkc
        cases hkc
      rcases List.mem_cons.mp hj with hjk | hjm
      · subst hjk
        cases hn : lookupN j n with
        | none =>
            have h := markLoop2_frame ks o n hkks
            have e1 : (markLoop2 (j :: ks) o n).1 = (markLoop2 ks o n).1 := by
              simp [markLoop2, hn]
            rw [e1, h]
            simp [hn]
        | some newNode =>
          cases hho : hasKeyN j o with
          | true =>
              have h := markLoop2_frame ks o n hkks
              have e1 : (markLoop2 (j :: ks) o n).1 = (markLoop2 ks o n).1 := by
                simp [markLoop2, hn, hho]
              rw [e1, h]
              simp [hn, hho]
          | false =>
              have h := markLoop2_frame ks o
                (updateN j { newNode with diffStatus := some .ADDED } n) hkks
              have e1 : (markLoop2 (j :: ks) o n).1 =
                  (markLoop2 ks o (updateN j { newNode with diffStatus := some .ADDED } n)).1 := by
                simp [markLoop2, hn, hho]
              rw [e1, h, lookupN_updateN_self hn]
              simp [hn, hho]
      · have hjk : j ≠ k := fun h => hkks (h ▸ hjm)
        cases hn : lookupN k n with
        | none => simpa [markLoop2, hn] using ih n hks' hjm
        | some newNode =>
          cases hho : hasKeyN k o with
          | true => simpa [markLoop2, hn, hho] using ih n hks' hjm
          | false =>
              have h := ih (updateN k { newNode with diffStatus := some .ADDED } n) hks' hjm
              rw [lookupN_updateN_ne hjk] at h
              simpa [markLoop2, hn, hho] using h

/-- Both loops preserve the key sequences of both maps (the comparator never
inserts or removes map entries). -/
theorem markLoop1_keys (ks : List String) (o n : NodeMap) :
    keysN (markLoop1 ks o n).1 = keysN o ∧ keysN (markLoop1 ks o n).2.1 = keysN n := by
  induction ks generalizing o n with
  | nil => exact ⟨rfl, rfl⟩
  | cons k ks ih =>
      cases ho : lookupN k o with
      | none => simpa [markLoop1, ho] using ih o n
      | some oldN =>
        cases hn : lookupN k n with
        | none =>
            have h := ih (updateN k { oldN with diffStatus := some .DELETED } o) n
            rw [keysN_updateN] at h
            simpa [markLoop1, ho, hn] using h
        | some newNode =>
          cases heq : areEqualNode oldN newNode with
          | true => simpa [markLoop1, ho, hn, heq] using ih o n
          | false =>
              have h := ih (updateN k { oldN with diffStatus := some .MODIFIED } o)
                (updateN k { newNode with diffStatus := some .MODIFIED } n)
              rw [keysN_updateN, keysN_updateN] at h
              simpa [markLoop1, ho, hn, heq] using h

theorem markLoop2_keys (ks : List String) (o n : NodeMap) :
    keysN (markLoop2 ks o n).1 = keysN n := by
  induction ks generalizing n with
  | nil => rfl
  | cons k ks ih =>
      cases hn : lookupN k n with
      | none => simpa [markLoop2, hn] using ih n
      | some newNode =>
        cases hho : hasKeyN k o with
        | true => simpa [markLoop2, hn, hho] using ih n
        | false =>
            have h := ih (updateN k { newNode with diffStatus := some .ADDED } n)
            rw [keysN_updateN] at h
            simpa [markLoop2, hn, hho] using h

theorem lookupN_updateN_fields {m : NodeMap} {k : String} (x : FlowNode)
    {x0 : FlowNode} (h : lookupN k m = some x0) (hf : x.fields = x0.fields)
    (j : String) :
    (lookupN j (updateN k x m)).map FlowNode.fields =
      (lookupN j m).map FlowNode.fields := by
  by_cases hj : j = k
  · subst hj
    rw [lookupN_updateN_self h, h]
    simp [hf]
  · rw [lookupN_updateN_ne hj]

/-- Neither loop changes anything about a node other than its `diffStatus`:
the parsed fields visible under every key are untouched. -/
theorem markLoop1_fields (ks : List String) (o n : NodeMap) (j : String) :
    (lookupN j (markLoop1 ks o n).1).map FlowNode.fields =
      (lookupN j o).map FlowNode.fields ∧
    (lookupN j (markLoop1 ks o n).2.1).map FlowNode.fields =
      (lookupN j n).map FlowNode.fields := by
  induction ks generalizing o n with
  | nil => exact ⟨rfl, rfl⟩
  | cons k ks ih =>
      cases ho : lookupN k o with
      | none => simpa [markLoop1, ho] using ih o n
      | some oldN =>
        cases hn : lookupN k n with
        | none =>
            have h := ih (updateN k { oldN with diffStatus := some .DELETED } o) n
            rw [lookupN_updateN_fields { oldN with diffStatus := some .DELETED } ho rfl j] at h
            simpa [markLoop1, ho, hn] using h
        | some newNode =>
          cases heq : areEqualNode oldN newNode with
          | true => simpa [markLoop1, ho, hn, heq] using ih o n
          | false =>
              have h := ih (updateN k { oldN with diffStatus := some .MODIFIED } o)
                (updateN k { newNode with diffStatus := some .MODIFIED } n)
              rw [lookupN_updateN_fields { oldN with diffStatus := some .MODIFIED } ho rfl j, lookupN_updateN_fields { newNode with diffStatus := some .MODIFIED } hn rfl j] at h
              simpa [markLoop1, ho, hn, heq] using h

theorem markLoop2_fields (ks : List String) (o n : NodeMap) (j : String) :
    (lookupN j (markLoop2 ks o n).1).map FlowNode.fields =
      (lookupN j n).map FlowNode.fields := by
  induction ks generalizing n with
  | nil => rfl
  | cons k ks ih =>
      cases hn : lookupN k n with
      | none => simpa [markLoop2, hn] using ih n
      | some newNode =>
        cases hho : hasKeyN k o with
        | true => simpa [markLoop2, hn, hho] using ih n
        | false =>
            have h := ih (updateN k { newNode with diffStatus := some .ADDED } n)
            rw [lookupN_updateN_fields { newNode with diffStatus := some .ADDED } hn rfl j] at h
            simpa [markLoop2, hn, hho] using h

/-- Every assignment of the first loop targets a visited key, carries status
`DELETED` or `MODIFIED`, and goes to the new side only with `MODIFIED`. -/
theorem markLoop1_trace_mem (ks : List String) (o n : NodeMap) :
    ∀ a ∈ (markLoop1 ks o n).2.2, a.key ∈ ks ∧
      (a.status = .DELETED ∨ a.status = .MODIFIED) ∧
      (a.side = .newSide → a.status = .MODIFIED) := by
  induction ks generalizing o n with
  | nil => intro a ha; cases ha
  | cons k ks ih =>
      intro a ha
      cases ho : lookupN k o with
      | none =>
          simp only [markLoop1, ho] at ha
          have h := ih o n a ha
          exact ⟨List.mem_cons_of_mem _ h.1, h.2⟩
      | some oldN =>
        cases hn : lookupN k n with
        | none =>
            simp only [markLoop1, ho, hn, List.mem_cons] at ha
            rcases ha with ha | ha
            · subst ha
              refine ⟨List.mem_cons_self _ _, Or.inl rfl, ?_⟩
              intro hside
              cases hside
            · have h := ih (updateN k { oldN with diffStatus := some .DELETED } o) n a ha
              exact ⟨List.mem_cons_of_mem _ h.1, h.2⟩
        | some newNode =>
          cases heq : areEqualNode oldN newNode with
          | true =>
              simp only [markLoop1, ho, hn, heq, if_true] at ha
              have h := ih o n a ha
              exact ⟨List.mem_cons_of_mem _ h.1, h.2⟩
          | false =>
              simp only [markLoop1, ho, hn, heq, Bool.false_eq_true, if_false,
                List.mem_cons] at ha
              rcases ha with ha | ha | ha
              · subst ha
                exact ⟨List.mem_cons_self _ _, Or.inr rfl, fun _ => rfl⟩
              · subst ha
                exact ⟨List.mem_cons_self _ _, Or.inr rfl, fun _ => rfl⟩
              · have h := ih (updateN k { oldN with diffStatus := some .MODIFIED } o)
                  (updateN k { newNode with diffStatus := some .MODIFIED } n) a ha
                exact ⟨List.mem_cons_of_mem _ h.1, h.2⟩

/-- Every assignment of the second loop targets a visited key that the old
map does not contain, lands on the new side and carries status `ADDED`. -/
theorem markLoop2_trace_mem (ks : List String) (o n : NodeMap) :
    ∀ a ∈ (markLoop2 ks o n).2, a.key ∈ ks ∧ lookupN a.key o = none ∧
      a.side = .newSide ∧ a.status = .ADDED := by
  induction ks generalizing n with
  | nil => intro a ha; cases ha
  | cons k ks ih =>
      intro a ha
      cases hn : lookupN k n with
      | none =>
          simp only [markLoop2, hn] at ha
          have h := ih n a ha
          exact ⟨List.mem_cons_of_mem _ h.1, h.2⟩
      | some newNode =>
        cases hho : hasKeyN k o with
        | true =>
            simp only [markLoop2, hn, hho, if_true] at ha
            have h := ih n a ha
            exact ⟨List.mem_cons_of_mem _ h.1, h.2⟩
        | false =>
            simp only [markLoop2, hn, hho, Bool.false_eq_true, if_false,
              List.mem_cons] at ha
            rcases ha with ha | ha
            · subst ha
              refine ⟨List.mem_cons_self _ _, ?_, rfl, rfl⟩
              simp only [hasKeyN] at hho
              rcases hx : lookupN k o with _ | x
              · rfl
              · rw [hx] at hho
                cases hho
            · have h := ih (updateN k { newNode with diffStatus := some .ADDED } n) a ha
              exact ⟨List.mem_cons_of_mem _ h.1, h.2⟩

/-- The `(side, key)` pairs written by the first loop are pairwise distinct
when the visited keys are. -/
theorem markLoop1_trace_nodup (ks : List String) (o n : NodeMap)
    (hks : nodupB ks = true) :
    ((markLoop1 ks o n).2.2.map fun a => (a.side, a.key)).Nodup := by
  induction ks generalizing o n with
  | nil => simp [markLoop1]
  | cons k ks ih =>
      have hks2 : (!ks.contains k && nodupB ks) = true := by simpa [nodupB] using hks
      obtain ⟨hkc, hks'⟩ := Bool.and_eq_true_iff.mp hks2
      have hkks : k ∉ ks := by
        intro hmem
        have : ks.contains k = true := by simpa using hmem
        rw [this] at hkc
        cases hkc
      have hnotin : ∀ (o' n' : NodeMap) (sd : Side),
          (sd, k) ∉ (markLoop1 ks o' n').2.2.map fun a => (a.side, a.key) := by
        intro o' n' sd hmem
        rcases List.mem_map.mp hmem with ⟨a, ha, hae⟩
        have hk := (markLoop1_trace_mem ks o' n' a ha).1
        have hek : a.key = k := congrArg Prod.snd hae
        exact hkks (hek ▸ hk)
      cases ho : lookupN k o with
      | none => simpa [markLoop1, ho] using ih o n hks'
      | some oldN =>
        cases hn : lookupN k n with
        | none =>
            simp only [markLoop1, ho, hn, List.map_cons, List.nodup_cons, List.mem_map]
            constructor
            · intro hc
              rcases hc with ⟨a, ha, hae⟩
              have hk := (markLoop1_trace_mem ks _ n a ha).1
              have hek : a.key = k := congrArg Prod.snd hae
              exact hkks (hek ▸ hk)
            · exact ih _ n hks'
        | some newNode =>
          cases heq : areEqualNode oldN newNode with
          | true => simpa [markLoop1, ho, hn, heq] using ih o n hks'
          | false =>
              simp only [markLoop1, ho, hn, heq, Bool.false_eq_true, if_false,
                List.map_cons, List.nodup_cons, List.mem_cons, List.mem_map]
              refine ⟨?_, ?_, ih _ _ hks'⟩
              · intro hc
                rcases hc with hc | ⟨a, ha, hae⟩
                · cases hc
                · have hk := (markLoop1_trace_mem ks _ _ a ha).1
                  have hek : a.key = k := congrArg Prod.snd hae
                  exact hkks (hek ▸ hk)
              · intro hc
                rcases hc with ⟨a, ha, hae⟩
                have hk := (markLoop1_trace_mem ks _ _ a ha).1
                have hek : a.key = k := congrArg Prod.snd hae
                exact hkks (hek ▸ hk)

/-- The `(side, key)` pairs written by the second loop are pairwise distinct
when the visited keys are. -/
theorem markLoop2_trace_nodup (ks : List String) (o n : NodeMap)
    (hks : nodupB ks = true) :
    ((markLoop2 ks o n).2.map fun a => (a.side, a.key)).Nodup := by
  induction ks generalizing n with
  | nil => simp [markLoop2]
  | cons k ks ih =>
      have hks2 : (!ks.contains k && nodupB ks) = true := by simpa [nodupB] using hks
      obtain ⟨hkc, hks'⟩ := Bool.and_eq_true_iff.mp hks2
      have hkks : k ∉ ks := by
        intro hmem
        have : ks.contains k = true := by simpa using hmem
        rw [this] at hkc
        cases hkc
      cases hn : lookupN k n with
      | none => simpa [markLoop2, hn] using ih n hks'
      | some newNode =>
        cases hho : hasKeyN k o with
        | true => simpa [markLoop2, hn, hho] using ih n hks'
        | false =>
            simp only [markLoop2, hn, hho, Bool.false_eq_true, if_false,
              List.map_cons, List.nodup_cons, List.mem_map]
            constructor
            · intro hc
              rcases hc with ⟨a, ha, hae⟩
              have hk := (markLoop2_trace_mem ks o _ a ha).1
              have hek : a.key = k := congrArg Prod.snd hae
              exact hkks (hek ▸ hk)
            · exact ih _ hks'

/-! ## `compareFlows` glue lemmas -/

theorem keysN_nil_iff {m : NodeMap} : keysN m = [] ↔ m = [] := by
  cases m with
  | nil => simp [keysN]
  | cons hd tl => simp [keysN]

theorem freshMap_lookup {m : NodeMap} {k : String} {x : FlowNode}
    (h : freshMap m = true) (hl : lookupN k m = some x) : x.diffStatus = none := by
  induction m with
  | nil => cases hl
  | cons hd tl ih =>
      rcases hd with ⟨k0, v0⟩
      have h2 : (v0.diffStatus.isNone && (tl.all fun p => p.2.diffStatus.isNone)) = true := by
        simpa [freshMap] using h
      obtain ⟨h1, h2⟩ := Bool.and_eq_true_iff.mp h2
      by_cases hk : k0 = k
      · rw [lookupN, if_pos hk] at hl
        cases hl
        simpa [Option.isNone_iff_eq_none] using h1
      · rw [lookupN, if_neg hk] at hl
        exact ih (by simpa [freshMap] using h2) hl

theorem wfMap_lookup {m : NodeMap} {k : String} {x : FlowNode}
    (h : wfMap m = true) (hl : lookupN k m = some x) :
    (Val.obj x.fields).wf = true := by
  induction m with
  | nil => cases hl
  | cons hd tl ih =>
      rcases hd with ⟨k0, v0⟩
      have h2 : ((Val.obj v0.fields).wf && (tl.all fun p => (Val.obj p.2.fields).wf)) = true := by
        simpa [wfMap] using h
      obtain ⟨h1, h2⟩ := Bool.and_eq_true_iff.mp h2
      by_cases hk : k0 = k
      · rw [lookupN, if_pos hk] at hl
        cases hl
        exact h1
      · rw [lookupN, if_neg hk] at hl
        exact ih (by simpa [wfMap] using h2) hl

/-- The name index of the returned old flow is exactly the old map the loops
produced (an absent index stays absent and reads as the empty map). -/
theorem mapOf_compareFlows_fst (oldF newF : ParsedFlow) :
    mapOf (compareFlows oldF newF).1 =
      (compareFlowsCore (mapOf oldF) (mapOf newF)).1 := by
  cases ho : oldF.nameToNode with
  | none =>
      simp only [compareFlows, mapOf, ho]
      rfl
  | some m =>
      simp only [compareFlows, mapOf, ho]
      rfl

theorem mapOf_compareFlows_snd (oldF newF : ParsedFlow) :
    mapOf (compareFlows oldF newF).2 =
      (compareFlowsCore (mapOf oldF) (mapOf newF)).2.1 := by
  cases hn : newF.nameToNode with
  | some m =>
      simp only [compareFlows, mapOf, hn]
      rfl
  | none =>
      have hmn : mapOf newF = [] := by simp [mapOf, hn]
      have h2 : (markLoop1 (keysN (mapOf oldF)) (mapOf oldF) (mapOf newF)).2.1 = [] := by
        apply keysN_nil_iff.mp
        rw [(markLoop1_keys _ _ _).2, hmn]
        rfl
      have hL : mapOf (compareFlows oldF newF).2 = [] := by
        simp [compareFlows, mapOf, hn]
      rw [hL]
      show ([] : NodeMap) =
        (markLoop2 (keysN (markLoop1 (keysN (mapOf oldF)) (mapOf oldF) (mapOf newF)).2.1)
          (markLoop1 (keysN (mapOf oldF)) (mapOf oldF) (mapOf newF)).1
          (markLoop1 (keysN (mapOf oldF)) (mapOf oldF) (mapOf newF)).2.1).1
      rw [h2]
      rfl

/-- The comparator's effect on the two name indexes, key by key: a name only
in the old map marks the old node `DELETED`; a name only in the new map marks
the new node `ADDED`; a name in both marks both `MODIFIED` exactly when the
nodes are structurally unequal and leaves both untouched otherwise. -/
theorem compareFlowsCore_lookup (o n : NodeMap) (hko : nodupB (keysN o) = true)
    (hkn : nodupB (keysN n) = true) (k : String) :
    lookupN k (compareFlowsCore o n).1 =
      (match lookupN k o, lookupN k n with
       | none, _ => none
       | some oldN, none => some { oldN with diffStatus := some .DELETED }
       | some oldN, some newN =>
           if areEqualNode oldN newN then some oldN
           else some { oldN with diffStatus := some .MODIFIED }) ∧
    lookupN k (compareFlowsCore o n).2.1 =
      (match lookupN k o, lookupN k n with
       | _, none => none
       | none, some newN => some { newN with diffStatus := some .ADDED }
       | some oldN, some newN =>
           if areEqualNode oldN newN then some newN
           else some { newN with diffStatus := some .MODIFIED }) := by
  have hkeys1 := markLoop1_keys (keysN o) o n
  have hkn' : nodupB (keysN (markLoop1 (keysN o) o n).2.1) = true := by
    rw [hkeys1.2]; exact hkn
  constructor
  · -- old side: only the first loop writes it
    have hskip : lookupN k (compareFlowsCore o n).1 = lookupN k (markLoop1 (keysN o) o n).1 := rfl
    rw [hskip]
    by_cases hmem : k ∈ keysN o
    · exact (markLoop1_mem (keysN o) o n hko hmem).1
    · have hnone : lookupN k o = none := lookupN_none_iff.mpr hmem
      rw [(markLoop1_frame (keysN o) o n hmem).1, hnone]
  · -- new side: first loop then second loop
    have hsnd : (compareFlowsCore o n).2.1 =
        (markLoop2 (keysN (markLoop1 (keysN o) o n).2.1) (markLoop1 (keysN o) o n).1
          (markLoop1 (keysN o) o n).2.1).1 := rfl
    rw [hsnd]
    by_cases hmem : k ∈ keysN (markLoop1 (keysN o) o n).2.1
    · have hmemn : k ∈ keysN n := hkeys1.2 ▸ hmem
      have hsome : (lookupN k n).isSome = true := lookupN_isSome_iff.mpr hmemn
      rcases hn : lookupN k n with _ | newN
      · rw [hn] at hsome; cases hsome
      · have h2 := markLoop2_mem (keysN (markLoop1 (keysN o) o n).2.1)
          (markLoop1 (keysN o) o n).1 (markLoop1 (keysN o) o n).2.1 hkn' hmem
        by_cases hmo : k ∈ keysN o
        · rcases ho : lookupN k o with _ | oldN
          · exact absurd (lookupN_isSome_iff.mpr hmo) (by simp [ho])
          · have h1 := (markLoop1_mem (keysN o) o n hko hmo).2
            simp only [ho, hn] at h1
            have hhas : hasKeyN k (markLoop1 (keysN o) o n).1 = true := by
              have hmm : k ∈ keysN (markLoop1 (keysN o) o n).1 := by
                rw [hkeys1.1]; exact hmo
              simpa [hasKeyN] using lookupN_isSome_iff.mpr hmm
            rw [h2, h1, hhas]
            cases heq : areEqualNode oldN newN with
            | true => simp [ho, hn, heq]
            | false => simp [ho, hn, heq]
        · have ho : lookupN k o = none := lookupN_none_iff.mpr hmo
          have h1 := (markLoop1_frame (keysN o) o n hmo).2
          have hhas : hasKeyN k (markLoop1 (keysN o) o n).1 = false := by
            have hmm : k ∉ keysN (markLoop1 (keysN o) o n).1 := by
              rw [hkeys1.1]; exact hmo
            simp [hasKeyN, lookupN_none_iff.mpr hmm]
          rw [h2, h1, hn, hhas]
          simp [ho, hn]
    · have hmemn : k ∉ keysN n := fun hc => hmem (hkeys1.2.symm ▸ hc)
      have hn : lookupN k n = none := lookupN_none_iff.mpr hmemn
      have h2 := markLoop2_frame (keysN (markLoop1 (keysN o) o n).2.1)
        (markLoop1 (keysN o) o n).1 (markLoop1 (keysN o) o n).2.1 hmem
      rw [h2]
      by_cases hmo : k ∈ keysN o
      · rcases ho : lookupN k o with _ | oldN
        · exact absurd (lookupN_isSome_iff.mpr hmo) (by simp [ho])
        · have h1 := (markLoop1_mem (keysN o) o n hko hmo).2
          simp only [ho, hn] at h1
          rw [h1]
          simp [ho, hn]
      · have ho : lookupN k o = none := lookupN_none_iff.mpr hmo
        have h1 := (markLoop1_frame (keysN o) o n hmo).2
        rw [h1, hn]
        simp [ho]

/-! ## Self-comparison -/

theorem markLoop1_self (ks : List String) (m : NodeMap)
    (hf : freshMap m = true) (hw : wfMap m = true) :
    markLoop1 ks m m = (m, m, []) := by
  induction ks with
  | nil => rfl
  | cons k ks ih =>
      cases ho : lookupN k m with
      | none => simp [markLoop1, ho, ih]
      | some x =>
          have heq : areEqualNode x x = true :=
            areEqualNode_refl (freshMap_lookup hf ho) (wfMap_lookup hw ho)
          simp [markLoop1, ho, heq, ih]

theorem markLoop2_self (ks : List String) (m : NodeMap) :
    markLoop2 ks m m = (m, []) := by
  induction ks with
  | nil => rfl
  | cons k ks ih =>
      cases hn : lookupN k m with
      | none => simp [markLoop2, hn, ih]
      | some x =>
          have hhas : hasKeyN k m = true := by simp [hasKeyN, hn]
          simp [markLoop2, hn, hhas, ih]

theorem compareFlowsCore_self (m : NodeMap)
    (hf : freshMap m = true) (hw : wfMap m = true) :
    compareFlowsCore m m = (m, m, []) := by
  simp [compareFlowsCore, markLoop1_self (keysN m) m hf hw, markLoop2_self]

/-- General key preservation of a full comparison. -/
theorem compareFlows_keys (oldF newF : ParsedFlow) :
    keysN (mapOf (compareFlows oldF newF).1) = keysN (mapOf oldF) ∧
    keysN (mapOf (compareFlows oldF newF).2) = keysN (mapOf newF) := by
  constructor
  · rw [mapOf_compareFlows_fst]
    exact (markLoop1_keys _ _ _).1
  · rw [mapOf_compareFlows_snd]
    show keysN (markLoop2
        (keysN (markLoop1 (keysN (mapOf oldF)) (mapOf oldF) (mapOf newF)).2.1)
        (markLoop1 (keysN (mapOf oldF)) (mapOf oldF) (mapOf newF)).1
        (markLoop1 (keysN (mapOf oldF)) (mapOf oldF) (mapOf newF)).2.1).1 =
      keysN (mapOf newF)
    rw [markLoop2_keys]
    exact (markLoop1_keys _ _ _).2

theorem setIndex_eta (f : ParsedFlow) (m : Option NodeMap)
    (hm : f.nameToNode = m) : { f with nameToNode := m } = f := by
  cases f
  cases hm
  rfl

/-! ## Claim theorems for the comparator -/

/-- C1: for every pair of freshly parsed flows, `compareFlows` marks a name
present only in the old index `DELETED` on the old node, a name present only
in the new index `ADDED` on the new node, a name present in both with
structurally unequal nodes `MODIFIED` on both nodes, and leaves both nodes of
a name present in both with structurally equal nodes without any
`diffStatus`. -/
theorem compareFlows_marks_diff (oldF newF : ParsedFlow)
    (hko : nodupKeys (mapOf oldF) = true) (hkn : nodupKeys (mapOf newF) = true)
    (hfo : freshMap (mapOf oldF) = true) (hfn : freshMap (mapOf newF) = true)
    (k : String) :
    (∀ oldN, lookupN k (mapOf oldF) = some oldN → lookupN k (mapOf newF) = none →
        lookupN k (mapOf (compareFlows oldF newF).1) =
          some { oldN with diffStatus := some .DELETED }) ∧
    (∀ newN, lookupN k (mapOf newF) = some newN → lookupN k (mapOf oldF) = none →
        lookupN k (mapOf (compareFlows oldF newF).2) =
          some { newN with diffStatus := some .ADDED }) ∧
    (∀ oldN newN, lookupN k (mapOf oldF) = some oldN →
        lookupN k (mapOf newF) = some newN → areEqualNode oldN newN = false →
        lookupN k (mapOf (compareFlows oldF newF).1) =
          some { oldN with diffStatus := some .MODIFIED } ∧
        lookupN k (mapOf (compareFlows oldF newF).2) =
          some { newN with diffStatus := some .MODIFIED }) ∧
    (∀ oldN newN, lookupN k (mapOf oldF) = some oldN →
        lookupN k (mapOf newF) = some newN → areEqualNode oldN newN = true →
        lookupN k (mapOf (compareFlows oldF newF).1) = some oldN ∧
        oldN.diffStatus = none ∧
        lookupN k (mapOf (compareFlows oldF newF).2) = some newN ∧
        newN.diffStatus = none) := by
  have hc := compareFlowsCore_lookup (mapOf oldF) (mapOf newF) hko hkn k
  rw [← mapOf_compareFlows_fst, ← mapOf_compareFlows_snd] at hc
  refine ⟨?_, ?_, ?_, ?_⟩
  · intro oldN h1 h2
    rw [hc.1]
    simp [h1, h2]
  · intro newN h1 h2
    rw [hc.2]
    simp [h1, h2]
  · intro oldN newN h1 h2 heq
    constructor
    · rw [hc.1]; simp [h1, h2, heq]
    · rw [hc.2]; simp [h1, h2, heq]
  · intro oldN newN h1 h2 heq
    refine ⟨?_, freshMap_lookup hfo h1, ?_, freshMap_lookup hfn h2⟩
    · rw [hc.1]; simp [h1, h2, heq]
    · rw [hc.2]; simp [h1, h2, heq]

/-- C6: comparing a parsed flow against a structurally identical copy of
itself returns both flows unchanged — no node receives a `diffStatus` — and
the structural-equality check is reflexive, so two independently constructed
nodes with identical content compare equal. -/
theorem compareFlows_self_copy_unchanged (g g' : ParsedFlow) (hcopy : g' = g)
    (hf : freshMap (mapOf g) = true) (hw : wfMap (mapOf g) = true) :
    compareFlows g g' = (g, g') ∧
    (∀ nd : FlowNode, nd.diffStatus = none → (Val.obj nd.fields).wf = true →
        areEqualNode nd nd = true) := by
  subst hcopy
  refine ⟨?_, fun nd h1 h2 => areEqualNode_refl h1 h2⟩
  have hcore := compareFlowsCore_self (mapOf g') hf hw
  obtain ⟨l, p, st, nds, nn, tr⟩ := g'
  cases nn with
  | none => simp [compareFlows]
  | some m =>
      have hm : mapOf ⟨l, p, st, nds, some m, tr⟩ = m := rfl
      rw [hm] at hcore
      simp [compareFlows, hcore]

/-- C7: `compareFlows` is total, and a flow with an absent name index is
treated exactly as one with an empty index: it comes back unchanged, and
every node of the other graph is marked `ADDED` (when the old index is
absent) or `DELETED` (when the new index is absent), with the key sequence of
the other graph untouched. -/
theorem compareFlows_absent_graph (oldF newF : ParsedFlow)
    (hko : nodupKeys (mapOf oldF) = true) (hkn : nodupKeys (mapOf newF) = true) :
    (oldF.nameToNode = none →
        (compareFlows oldF newF).1 = oldF ∧
        keysN (mapOf (compareFlows oldF newF).2) = keysN (mapOf newF) ∧
        ∀ k newN, lookupN k (mapOf newF) = some newN →
          lookupN k (mapOf (compareFlows oldF newF).2) =
            some { newN with diffStatus := some .ADDED }) ∧
    (newF.nameToNode = none →
        (compareFlows oldF newF).2 = newF ∧
        keysN (mapOf (compareFlows oldF newF).1) = keysN (mapOf oldF) ∧
        ∀ k oldN, lookupN k (mapOf oldF) = some oldN →
          lookupN k (mapOf (compareFlows oldF newF).1) =
            some { oldN with diffStatus := some .DELETED }) := by
  constructor
  · intro h
    refine ⟨?_, (compareFlows_keys oldF newF).2, ?_⟩
    · have he : (compareFlows oldF newF).1 =
          { oldF with nameToNode := (oldF.nameToNode.map
              fun _ => (compareFlowsCore (mapOf oldF) (mapOf newF)).1) } := rfl
      rw [he, h]
      exact setIndex_eta oldF none h
    · intro k newN h1
      have hmo : mapOf oldF = [] := by simp [mapOf, h]
      have h2 : lookupN k (mapOf oldF) = none := by rw [hmo]; rfl
      have hc := compareFlowsCore_lookup (mapOf oldF) (mapOf newF) hko hkn k
      rw [← mapOf_compareFlows_snd] at hc
      rw [hc.2]
      simp [h1, h2]
  · intro h
    refine ⟨?_, (compareFlows_keys oldF newF).1, ?_⟩
    · have he : (compareFlows oldF newF).2 =
          { newF with nameToNode := (newF.nameToNode.map
              fun _ => (compareFlowsCore (mapOf oldF) (mapOf newF)).2.1) } := rfl
      rw [he, h]
      exact setIndex_eta newF none h
    · intro k oldN h1
      have hmn : mapOf newF = [] := by simp [mapOf, h]
      have h2 : lookupN k (mapOf newF) = none := by rw [hmn]; rfl
      have hc := compareFlowsCore_lookup (mapOf oldF) (mapOf newF) hko hkn k
      rw [← mapOf_compareFlows_fst] at hc
      rw [hc.1]
      simp [h1, h2]

/-- C9: `compareFlows` only ever writes the `diffStatus` field of nodes: the
flow labels, process types, start nodes, per-kind node arrays and transition
sequences of both flows are unchanged, both name indexes keep exactly their
key sequences, and under every key the node's parsed fields are exactly what
they were before the call. -/
theorem compareFlows_frame (oldF newF : ParsedFlow) :
    (compareFlows oldF newF).1.label = oldF.label ∧
    (compareFlows oldF newF).1.processType = oldF.processType ∧
    (compareFlows oldF newF).1.start = oldF.start ∧
    (compareFlows oldF newF).1.nodes = oldF.nodes ∧
    (compareFlows oldF newF).1.transitions = oldF.transitions ∧
    (compareFlows oldF newF).2.label = newF.label ∧
    (compareFlows oldF newF).2.processType = newF.processType ∧
    (compareFlows oldF newF).2.start = newF.start ∧
    (compareFlows oldF newF).2.nodes = newF.nodes ∧
    (compareFlows oldF newF).2.transitions = newF.transitions ∧
    (compareFlows oldF newF).1.nameToNode.isSome = oldF.nameToNode.isSome ∧
    (compareFlows oldF newF).2.nameToNode.isSome = newF.nameToNode.isSome ∧
    keysN (mapOf (compareFlows oldF newF).1) = keysN (mapOf oldF) ∧
    keysN (mapOf (compareFlows oldF newF).2) = keysN (mapOf newF) ∧
    (∀ k, (lookupN k (mapOf (compareFlows oldF newF).1)).map FlowNode.fields =
        (lookupN k (mapOf oldF)).map FlowNode.fields) ∧
    (∀ k, (lookupN k (mapOf (compareFlows oldF newF).2)).map FlowNode.fields =
        (lookupN k (mapOf newF)).map FlowNode.fields) := by
  refine ⟨rfl, rfl, rfl, rfl, rfl, rfl, rfl, rfl, rfl, rfl, ?_, ?_,
    (compareFlows_keys oldF newF).1, (compareFlows_keys oldF newF).2, ?_, ?_⟩
  · show (oldF.nameToNode.map _).isSome = oldF.nameToNode.isSome
    cases oldF.nameToNode <;> rfl
  · show (newF.nameToNode.map _).isSome = newF.nameToNode.isSome
    cases newF.nameToNode <;> rfl
  · intro k
    rw [mapOf_compareFlows_fst]
    exact (markLoop1_fields (keysN (mapOf oldF)) (mapOf oldF) (mapOf newF) k).1
  · intro k
    rw [mapOf_compareFlows_snd]
    show (lookupN k (markLoop2
        (keysN (markLoop1 (keysN (mapOf oldF)) (mapOf oldF) (mapOf newF)).2.1)
        (markLoop1 (keysN (mapOf oldF)) (mapOf oldF) (mapOf newF)).1
        (markLoop1 (keysN (mapOf oldF)) (mapOf oldF) (mapOf newF)).2.1).1).map FlowNode.fields =
      (lookupN k (mapOf newF)).map FlowNode.fields
    rw [markLoop2_fields]
    exact (markLoop1_fields (keysN (mapOf oldF)) (mapOf oldF) (mapOf newF) k).2

/-- C10: after a comparison of freshly parsed flows, old-graph nodes carry no
status or `DELETED`/`MODIFIED` (never `ADDED`), new-graph nodes carry no
status or `ADDED`/`MODIFIED` (never `DELETED`), and no node is written twice:
the `(side, key)` pairs of the comparison's `diffStatus` assignments are
pairwise distinct. -/
theorem compareFlows_status_discipline (oldF newF : ParsedFlow)
    (hko : nodupKeys (mapOf oldF) = true) (hkn : nodupKeys (mapOf newF) = true)
    (hfo : freshMap (mapOf oldF) = true) (hfn : freshMap (mapOf newF) = true) :
    (∀ k nd, lookupN k (mapOf (compareFlows oldF newF).1) = some nd →
        nd.diffStatus = none ∨ nd.diffStatus = some .DELETED ∨
        nd.diffStatus = some .MODIFIED) ∧
    (∀ k nd, lookupN k (mapOf (compareFlows oldF newF).2) = some nd →
        nd.diffStatus = none ∨ nd.diffStatus = some .ADDED ∨
        nd.diffStatus = some .MODIFIED) ∧
    ((compareFlowsTrace oldF newF).map fun a => (a.side, a.key)).Nodup := by
  refine ⟨?_, ?_, ?_⟩
  · intro k nd hl
    have hc := (compareFlowsCore_lookup (mapOf oldF) (mapOf newF) hko hkn k).1
    rw [← mapOf_compareFlows_fst] at hc
    rw [hc] at hl
    rcases ho : lookupN k (mapOf oldF) with _ | oldN
    · simp only [ho] at hl
      cases hl
    · rcases hn : lookupN k (mapOf newF) with _ | newN
      · simp only [ho, hn, Option.some_inj] at hl
        right; left
        rw [← hl]
      · simp only [ho, hn] at hl
        cases heq : areEqualNode oldN newN with
        | true =>
            simp only [heq, if_true, Option.some_inj] at hl
            left
            rw [← hl]
            exact freshMap_lookup hfo ho
        | false =>
            simp only [heq, Bool.false_eq_true, if_false, Option.some_inj] at hl
            right; right
            rw [← hl]
  · intro k nd hl
    have hc := (compareFlowsCore_lookup (mapOf oldF) (mapOf newF) hko hkn k).2
    rw [← mapOf_compareFlows_snd] at hc
    rw [hc] at hl
    rcases hn : lookupN k (mapOf newF) with _ | newN
    · rcases ho : lookupN k (mapOf oldF) with _ | oldN
      · simp only [ho, hn] at hl
        cases hl
      · simp only [ho, hn] at hl
        cases hl
    · rcases ho : lookupN k (mapOf oldF) with _ | oldN
      · simp only [ho, hn, Option.some_inj] at hl
        right; left
        rw [← hl]
      · simp only [ho, hn] at hl
        cases heq : areEqualNode oldN newN with
        | true =>
            simp only [heq, if_true, Option.some_inj] at hl
            left
            rw [← hl]
            exact freshMap_lookup hfn hn
        | false =>
            simp only [heq, Bool.false_eq_true, if_false, Option.some_inj] at hl
            right; right
            rw [← hl]
  · have htr : compareFlowsTrace oldF newF =
        (markLoop1 (keysN (mapOf oldF)) (mapOf oldF) (mapOf newF)).2.2 ++
        (markLoop2 (keysN (markLoop1 (keysN (mapOf oldF)) (mapOf oldF) (mapOf newF)).2.1)
          (markLoop1 (keysN (mapOf oldF)) (mapOf oldF) (mapOf newF)).1
          (markLoop1 (keysN (mapOf oldF)) (mapOf oldF) (mapOf newF)).2.1).2 := rfl
    rw [htr, List.map_append]
    have hn1 := markLoop1_trace_nodup (keysN (mapOf oldF)) (mapOf oldF) (mapOf newF) hko
    have hkn' : nodupB (keysN (markLoop1 (keysN (mapOf oldF)) (mapOf oldF) (mapOf newF)).2.1)
        = true := by
      rw [(markLoop1_keys _ _ _).2]; exact hkn
    have hn2 := markLoop2_trace_nodup
      (keysN (markLoop1 (keysN (mapOf oldF)) (mapOf oldF) (mapOf newF)).2.1)
      (markLoop1 (keysN (mapOf oldF)) (mapOf oldF) (mapOf newF)).1
      (markLoop1 (keysN (mapOf oldF)) (mapOf oldF) (mapOf newF)).2.1 hkn'
    refine hn1.append hn2 ?_
    intro p hp1 hp2
    rcases List.mem_map.mp hp1 with ⟨a1, ha1, he1⟩
    rcases List.mem_map.mp hp2 with ⟨a2, ha2, he2⟩
    have hk1 : a1.key ∈ keysN (mapOf oldF) :=
      (markLoop1_trace_mem _ _ _ a1 ha1).1
    have hk2 := (markLoop2_trace_mem _ _ _ a2 ha2).2.1
    have hkeq : a1.key = a2.key := by
      have : (a1.side, a1.key) = (a2.side, a2.key) := he1.trans he2.symm
      exact congrArg Prod.snd this
    have hk2' : a2.key ∉ keysN (markLoop1 (keysN (mapOf oldF)) (mapOf oldF) (mapOf newF)).1 :=
      lookupN_none_iff.mp hk2
    rw [(markLoop1_keys _ _ _).1] at hk2'
    exact hk2' (hkeq ▸ hk1)

/-! ## Concrete flows exercising the comparator -/

def exNodeA : FlowNode := ⟨[("name", .prim (.str "A")), ("label", .prim (.str "Alpha"))], none⟩

def exNodeB : FlowNode := ⟨[("name", .prim (.str "B"))], none⟩

def exNodeB2 : FlowNode := ⟨[("name", .prim (.str "B")), ("x", .prim (.num "1"))], none⟩

def exNodeC : FlowNode := ⟨[("name", .prim (.str "C"))], none⟩

def exNodeD : FlowNode := ⟨[("name", .prim (.str "D"))], none⟩

def exOldFlow : ParsedFlow :=
  ⟨some "Flow", none, none, [],
    some [("A", exNodeA), ("B", exNodeB), ("C", exNodeC)], []⟩

def exNewFlow : ParsedFlow :=
  ⟨some "Flow", none, none, [],
    some [("B", exNodeB2), ("C", exNodeC), ("D", exNodeD)], []⟩

def exNoIndexFlow : ParsedFlow := ⟨some "Flow", none, none, [], none, []⟩

theorem compareFlows_marks_diff_witness :
    lookupN "A" (mapOf (compareFlows exOldFlow exNewFlow).1) =
      some { exNodeA with diffStatus := some .DELETED } ∧
    lookupN "D" (mapOf (compareFlows exOldFlow exNewFlow).2) =
      some { exNodeD with diffStatus := some .ADDED } ∧
    lookupN "B" (mapOf (compareFlows exOldFlow exNewFlow).1) =
      some { exNodeB with diffStatus := some .MODIFIED } ∧
    lookupN "B" (mapOf (compareFlows exOldFlow exNewFlow).2) =
      some { exNodeB2 with diffStatus := some .MODIFIED } ∧
    lookupN "C" (mapOf (compareFlows exOldFlow exNewFlow).1) = some exNodeC := by
  have h := fun k => compareFlows_marks_diff exOldFlow exNewFlow
    (by decide) (by decide) (by decide) (by decide) k
  refine ⟨(h "A").1 exNodeA rfl rfl, (h "D").2.1 exNodeD rfl rfl, ?_, ?_, ?_⟩
  · exact ((h "B").2.2.1 exNodeB exNodeB2 rfl rfl (by decide)).1
  · exact ((h "B").2.2.1 exNodeB exNodeB2 rfl rfl (by decide)).2
  · exact ((h "C").2.2.2 exNodeC exNodeC rfl rfl (by decide)).1

theorem compareFlows_self_copy_unchanged_witness :
    compareFlows exOldFlow exOldFlow = (exOldFlow, exOldFlow) ∧
    areEqualNode exNodeA exNodeA = true := by
  have h := compareFlows_self_copy_unchanged exOldFlow exOldFlow rfl (by decide) (by decide)
  exact ⟨h.1, h.2 exNodeA rfl (by decide)⟩

theorem compareFlows_absent_graph_witness :
    (compareFlows exNoIndexFlow exNewFlow).1 = exNoIndexFlow ∧
    keysN (mapOf (compareFlows exNoIndexFlow exNewFlow).2) = ["B", "C", "D"] ∧
    lookupN "D" (mapOf (compareFlows exNoIndexFlow exNewFlow).2) =
      some { exNodeD with diffStatus := some .ADDED } := by
  have h := (compareFlows_absent_graph exNoIndexFlow exNewFlow (by decide) (by decide)).1 rfl
  refine ⟨h.1, ?_, h.2.2 "D" exNodeD rfl⟩
  rw [h.2.1]
  rfl

theorem compareFlows_status_discipline_witness :
    ((compareFlowsTrace exOldFlow exNewFlow).map fun a => (a.side, a.key)).Nodup ∧
    (({ exNodeB with diffStatus := some DiffStatus.MODIFIED } : FlowNode).diffStatus = none ∨
     ({ exNodeB with diffStatus := some DiffStatus.MODIFIED } : FlowNode).diffStatus =
        some .DELETED ∨
     ({ exNodeB with diffStatus := some DiffStatus.MODIFIED } : FlowNode).diffStatus =
        some .MODIFIED) := by
  have h := compareFlows_status_discipline exOldFlow exNewFlow
    (by decide) (by decide) (by decide) (by decide)
  exact ⟨h.2.2, h.1 "B" { exNodeB with diffStatus := some DiffStatus.MODIFIED } rfl⟩

/-! ## Spec-modelled flow parser

The repository's `flow_parser.ts` (class `FlowParser`, entry point
`generateFlowDefinition`) is not among the available sources — only its test
suite (`flow_parser_test.ts`) and its callers ship here — and neither is
`flow_types.ts`.  The definitions in this namespace are therefore modelled
from the specification (§4.1: deserialize, normalize every node kind to an
array, build the name index, derive transitions per the per-kind rule table,
and validate every edge target against the index). -/

namespace Parsing

/-- Modelled from the spec: the ~18 node-kind keys of `flow_types.ts` (which
is missing from the sources), in the canonical visiting order of §3. -/
inductive NodeKind where
  | apexPluginCall
  | assignment
  | collectionProcessor
  | decision
  | loop
  | orchestratedStage
  | recordCreate
  | recordDelete
  | recordLookup
  | recordRollback
  | recordUpdate
  | screen
  | step
  | subflow
  | transform
  | wait
  | actionCall
  | customError
deriving DecidableEq

/-- The canonical kind order of §3, used for visiting nodes. -/
def kindOrder : List NodeKind :=
  [.apexPluginCall, .assignment, .collectionProcessor, .decision, .loop,
   .orchestratedStage, .recordCreate, .recordDelete, .recordLookup,
   .recordRollback, .recordUpdate, .screen, .step, .subflow, .transform,
   .wait, .actionCall, .customError]

/-- Modelled from the spec: a connector is a reference to a target node name
plus a flag distinguishing a "go to" jump from a sequential link. -/
structure Connector where
  targetReference : String
  isGoTo : Bool
deriving DecidableEq

/-- Modelled from the spec: a deserialized node with the connector fields the
per-kind edge table of §4.1 reads (primary and fault connectors; a Decision's
labelled rule connectors with optional default; a Loop's next-value and
no-more-values connectors). -/
structure SpecNode where
  name : String
  connector : Option Connector
  faultConnector : Option Connector
  rules : List (String × Connector)
  defaultConnector : Option Connector
  nextValueConnector : Option Connector
  noMoreValuesConnector : Option Connector
deriving DecidableEq

/-- Modelled from the spec: the Start element with its primary connector and
its labelled scheduled/async path connectors (label = the path's time-source
category). -/
structure SpecStart where
  name : String
  connector : Option Connector
  scheduledPaths : List (String × Connector)
deriving DecidableEq

/-- A node-kind value in the raw document: absent, a bare single occurrence,
or an explicit array — the single/plural ambiguity of the source format. -/
inductive OneOrMany (α : Type) where
  | absent
  | one (a : α)
  | many (l : List α)

/-- Modelled from the spec: the deserialized raw document — flow label,
optional Start element, and one possibly-absent, possibly-unwrapped
collection per node kind. -/
structure Document where
  label : String
  start : Option SpecStart
  elements : NodeKind → OneOrMany SpecNode

/-- The parser's terminal errors: `ERROR_MESSAGES.flowStartNotDefined` and
`ERROR_MESSAGES.couldNotFindConnectedNode(name)` of `flow_parser.ts`. -/
inductive ParseError where
  | flowStartNotDefined
  | couldNotFindConnectedNode (name : String)
deriving DecidableEq

/-- The synthetic start sentinel used as the implicit origin of the Start
element's transitions (`FLOW_START` in the tests). -/
def FLOW_START : String := "FLOW_START"

/-- Step 2 of §4.1: coerce a node-kind value into an array — a bare single
occurrence becomes a one-element array, an array passes through, absence
yields the empty collection. -/
def coerceToArray {α : Type} : OneOrMany α → List α
  | .absent => []
  | .one a => [a]
  | .many l => l

/-- The normalized per-kind node arrays of a document. -/
def normalize (d : Document) : NodeKind → List SpecNode :=
  fun k => coerceToArray (d.elements k)

/-- An entry of the name index: the Start element or a node of some kind. -/
inductive IndexedNode where
  | start (s : SpecStart)
  | node (k : NodeKind) (n : SpecNode)

/-- First-match association lookup (the `Map.get` of the name index). -/
def lookupA {α : Type} (k : String) : List (String × α) → Option α
  | [] => none
  | (k0, v) :: rest => if k0 = k then some v else lookupA k rest

/-- Step 3 of §4.1: build `nameToNode` from every node of every kind-array
plus the Start element. -/
def buildIndex (st : SpecStart) (arrays : List (NodeKind × List SpecNode)) :
    List (String × IndexedNode) :=
  (st.name, .start st) ::
    arrays.flatMap fun p => p.2.map fun nd => (nd.name, .node p.1 nd)

/-- The one edge a present connector contributes, with the given origin,
fault flag and label; an absent connector contributes nothing. -/
def connEdges (src : String) (c : Option Connector) (fault : Bool)
    (label : Option String) : List Transition :=
  match c with
  | none => []
  | some c => [⟨src, c.targetReference, fault, label⟩]

/-- The edges the Start element emits: one unlabeled edge via the primary
connector, then one labelled edge per scheduled/async path. -/
def startEdges (st : SpecStart) : List Transition :=
  connEdges FLOW_START st.connector false none ++
    st.scheduledPaths.map fun p => ⟨FLOW_START, p.2.targetReference, false, some p.1⟩

/-- The per-kind edge rule table of §4.1: a Decision emits one labelled edge
per rule plus an optional default-path edge; a Loop emits its "for each"
body edge and its post-loop edge; every other kind emits one unlabeled edge
via its primary connector plus, when a fault connector is present, an edge
flagged `fault` labelled "Fault".  (The spec leaves the default-path and
post-loop labels open; they are modelled as unlabeled.) -/
def nodeEdges (k : NodeKind) (n : SpecNode) : List Transition :=
  match k with
  | .decision =>
      (n.rules.map fun r => ⟨n.name, r.2.targetReference, false, some r.1⟩) ++
      connEdges n.name n.defaultConnector false none
  | .loop =>
      connEdges n.name n.nextValueConnector false (some "for each") ++
      connEdges n.name n.noMoreValuesConnector false none
  | _ =>
      connEdges n.name n.connector false none ++
      connEdges n.name n.faultConnector true (some "Fault")

/-- Step 4 of §4.1: every edge, visiting Start first and then each kind-array
in canonical order. -/
def emittedEdges (st : SpecStart) (arrays : List (NodeKind × List SpecNode)) :
    List Transition :=
  startEdges st ++ arrays.flatMap fun p => p.2.flatMap (nodeEdges p.1)

/-- The normalized kind-arrays of a document, in canonical order. -/
def docArrays (d : Document) : List (NodeKind × List SpecNode) :=
  kindOrder.map fun k => (k, normalize d k)

/-- Step 5 of §4.1: validate every emitted edge's target against the name
index, aborting at the first unresolved target with an error naming it. -/
def resolveEdges (idx : List (String × IndexedNode)) :
    List Transition → Except ParseError (List Transition)
  | [] => .ok []
  | e :: rest =>
      if (lookupA e.dst idx).isSome then
        match resolveEdges idx rest with
        | .ok ts => .ok (e :: ts)
        | .error err => .error err
      else .error (.couldNotFindConnectedNode e.dst)

/-- Modelled from the spec: the parsed flow — label, Start element,
normalized per-kind arrays, derived name index and derived transitions. -/
structure ParsedFlowP where
  label : String
  start : SpecStart
  elements : NodeKind → List SpecNode
  nameToNode : List (String × IndexedNode)
  transitions : List Transition

/-- Modelled from the spec: `FlowParser.generateFlowDefinition` (the class
itself is missing from the sources).  Fails with `flowStartNotDefined` when
the document has no Start element, then normalizes, indexes, derives the
transition sequence and validates every target, failing with
`couldNotFindConnectedNode` at the first dangling target. -/
def generateFlowDefinition (d : Document) : Except ParseError ParsedFlowP :=
  match d.start with
  | none => .error .flowStartNotDefined
  | some st =>
      match resolveEdges (buildIndex st (docArrays d)) (emittedEdges st (docArrays d)) with
      | .error err => .error err
      | .ok ts => .ok ⟨d.label, st, normalize d, buildIndex st (docArrays d), ts⟩

/-! ### Parser lemmas -/

theorem lookupA_isSome_of_mem {α : Type} {l : List (String × α)} {k : String}
    {v : α} (h : (k, v) ∈ l) : (lookupA k l).isSome = true := by
  induction l with
  | nil => cases h
  | cons hd tl ih =>
      rcases hd with ⟨k0, v0⟩
      by_cases hk : k0 = k
      · simp [lookupA, hk]
      · rcases List.mem_cons.mp h with he | he
        · injection he with h1 h2
          exact absurd h1.symm hk
        · simp [lookupA, hk, ih he]

theorem connEdges_src {src : String} {c : Option Connector} {f : Bool}
    {lb : Option String} : ∀ e ∈ connEdges src c f lb, e.src = src := by
  cases c <;> simp [connEdges]

theorem startEdges_src (st : SpecStart) :
    ∀ e ∈ startEdges st, e.src = FLOW_START := by
  intro e he
  simp only [startEdges, List.mem_append] at he
  rcases he with he | he
  · exact connEdges_src e he
  · rcases List.mem_map.mp he with ⟨p, hp, rfl⟩
    rfl

theorem nodeEdges_src (k : NodeKind) (n : SpecNode) :
    ∀ e ∈ nodeEdges k n, e.src = n.name := by
  intro e he
  cases k <;>
    simp only [nodeEdges, List.mem_append] at he <;>
    rcases he with he | he <;>
    first
      | exact connEdges_src e he
      | (rcases List.mem_map.mp he with ⟨r, hr, rfl⟩; rfl)

theorem mem_buildIndex {st : SpecStart} {arrays : List (NodeKind × List SpecNode)}
    {p : NodeKind × List SpecNode} {nd : SpecNode}
    (hp : p ∈ arrays) (hnd : nd ∈ p.2) :
    (nd.name, IndexedNode.node p.1 nd) ∈ buildIndex st arrays := by
  simp only [buildIndex, List.mem_cons, List.mem_flatMap]
  right
  exact ⟨p, hp, List.mem_map.mpr ⟨nd, hnd, rfl⟩⟩

/-- A validated edge list is returned unchanged, with every target
resolving through the index. -/
theorem resolveEdges_ok {idx : List (String × IndexedNode)} :
    ∀ {es ts : List Transition}, resolveEdges idx es = .ok ts →
      ts = es ∧ ∀ e ∈ es, (lookupA e.dst idx).isSome = true := by
  intro es
  induction es with
  | nil =>
      intro ts h
      simp only [resolveEdges] at h
      injection h with h
      exact ⟨h.symm, by intro e he; cases he⟩
  | cons e rest ih =>
      intro ts h
      by_cases hd : (lookupA e.dst idx).isSome = true
      · rw [resolveEdges, if_pos hd] at h
        cases hr : resolveEdges idx rest with
        | ok ts2 =>
            rw [hr] at h
            injection h with h
            obtain ⟨h1, h2⟩ := ih hr
            constructor
            · rw [← h, h1]
            · intro e1 he1
              rcases List.mem_cons.mp he1 with rfl | hm
              · exact hd
              · exact h2 e1 hm
        | error err =>
            rw [hr] at h
            cases h
      · rw [resolveEdges, if_neg hd] at h
        cases h

/-- When some emitted edge's target does not resolve and every unresolved
target is the name `t`, validation aborts with the error naming `t`. -/
theorem resolveEdges_error_of {idx : List (String × IndexedNode)} {t : String} :
    ∀ {es : List Transition},
      (∃ e ∈ es, (lookupA e.dst idx).isSome = false) →
      (∀ e ∈ es, (lookupA e.dst idx).isSome = false → e.dst = t) →
      resolveEdges idx es = .error (.couldNotFindConnectedNode t) := by
  intro es
  induction es with
  | nil =>
      rintro ⟨e, he, _⟩ _
      cases he
  | cons e rest ih =>
      rintro ⟨e0, he0, hbad⟩ hall
      by_cases hd : (lookupA e.dst idx).isSome = true
      · have hex : ∃ e1 ∈ rest, (lookupA e1.dst idx).isSome = false := by
          rcases List.mem_cons.mp he0 with rfl | hm
          · rw [hd] at hbad
            cases hbad
          · exact ⟨e0, hm, hbad⟩
        have hrec := ih hex fun e1 h1 h2 => hall e1 (List.mem_cons_of_mem _ h1) h2
        rw [resolveEdges, if_pos hd, hrec]
      · have hf : (lookupA e.dst idx).isSome = false := by
          cases hx : (lookupA e.dst idx).isSome
          · rfl
          · exact absurd hx hd
        rw [resolveEdges, if_neg hd, hall e (List.mem_cons_self _ _) hf]

/-- Every emitted edge originates at the start sentinel or at a node whose
name the index resolves. -/
theorem emittedEdges_src_resolves (st : SpecStart)
    (arrays : List (NodeKind × List SpecNode)) :
    ∀ e ∈ emittedEdges st arrays,
      e.src = FLOW_START ∨ (lookupA e.src (buildIndex st arrays)).isSome = true := by
  intro e he
  simp only [emittedEdges, List.mem_append] at he
  rcases he with he | he
  · exact Or.inl (startEdges_src st e he)
  · rcases List.mem_flatMap.mp he with ⟨p, hp, he2⟩
    rcases List.mem_flatMap.mp he2 with ⟨nd, hnd, he3⟩
    right
    rw [nodeEdges_src p.1 nd e he3]
    exact lookupA_isSome_of_mem (mem_buildIndex hp hnd)

/-! ### Claim theorems for the parser -/

/-- C3: a document without a Start element fails to parse with the
`flowStartNotDefined` error, and every successful parse had a Start
element. -/
theorem generateFlowDefinition_requires_start (d : Document) :
    (d.start = none →
        generateFlowDefinition d = .error .flowStartNotDefined) ∧
    (∀ pf, generateFlowDefinition d = .ok pf → d.start.isSome = true) := by
  constructor
  · intro h
    simp [generateFlowDefinition, h]
  · intro pf h
    cases hs : d.start with
    | none =>
        simp only [generateFlowDefinition, hs] at h
        cases h
    | some st => simp

/-- C4: a document carrying a single bare occurrence of a node kind parses
exactly like the same document with that occurrence wrapped in an explicit
one-element array — cardinality is normalized away. -/
theorem generateFlowDefinition_normalizes_cardinality (d : Document)
    (k : NodeKind) (x : SpecNode) (h : d.elements k = .one x) :
    generateFlowDefinition d =
      generateFlowDefinition
        { d with elements := fun k2 => if k2 = k then .many [x] else d.elements k2 } := by
  have hnn : normalize
      { d with elements := fun k2 => if k2 = k then OneOrMany.many [x] else d.elements k2 } =
      normalize d := by
    funext k2
    by_cases hk : k2 = k
    · subst hk
      simp [normalize, h, coerceToArray]
    · simp [normalize, hk]
  simp only [generateFlowDefinition, docArrays, hnn]

/-- C2: when the document's emitted edges contain at least one edge whose
target does not resolve in the name index, and every such unresolved target
is the identifier `t`, parsing fails with `couldNotFindConnectedNode t`;
conversely every transition of a successfully parsed flow has a target that
resolves through `nameToNode` and an origin that is either the start
sentinel or resolves through `nameToNode`. -/
theorem generateFlowDefinition_resolution (d : Document) :
    (∀ st t, d.start = some st →
        (∃ e ∈ emittedEdges st (docArrays d),
            (lookupA e.dst (buildIndex st (docArrays d))).isSome = false) →
        (∀ e ∈ emittedEdges st (docArrays d),
            (lookupA e.dst (buildIndex st (docArrays d))).isSome = false → e.dst = t) →
        generateFlowDefinition d = .error (.couldNotFindConnectedNode t)) ∧
    (∀ pf, generateFlowDefinition d = .ok pf →
        ∀ e ∈ pf.transitions,
          (lookupA e.dst pf.nameToNode).isSome = true ∧
          (e.src = FLOW_START ∨ (lookupA e.src pf.nameToNode).isSome = true)) := by
  constructor
  · intro st t hst hex hall
    have herr := resolveEdges_error_of hex hall
    simp [generateFlowDefinition, hst, herr]
  · intro pf h
    cases hst : d.start with
    | none =>
        simp only [generateFlowDefinition, hst] at h
        cases h
    | some st =>
        cases hres : resolveEdges (buildIndex st (docArrays d))
            (emittedEdges st (docArrays d)) with
        | error err =>
            simp only [generateFlowDefinition, hst, hres] at h
            cases h
        | ok ts =>
            simp only [generateFlowDefinition, hst, hres] at h
            injection h with h
            obtain ⟨h1, h2⟩ := resolveEdges_ok hres
            have hpt : pf.transitions = ts := by rw [← h]
            have hpi : pf.nameToNode = buildIndex st (docArrays d) := by rw [← h]
            intro e he
            rw [hpt, h1] at he
            rw [hpi]
            exact ⟨h2 e he, emittedEdges_src_resolves st (docArrays d) e he⟩

/-! ### Concrete documents exercising the parser -/

/-- A node of a given name with only an optional primary connector. -/
def mkBasicNode (nm : String) (target : Option String) : SpecNode :=
  ⟨nm, target.map fun t => ⟨t, false⟩, none, [], none, none, none⟩

def exStart : SpecStart := ⟨"start", some ⟨"myScreen", false⟩, []⟩

def exStartBare : SpecStart := ⟨"start", none, []⟩

def noStartDoc : Document := ⟨"NoStart", none, fun _ => .absent⟩

/-- A document whose screen's connector targets an undeclared name. -/
def badTargetDoc : Document :=
  ⟨"Bad", some exStart,
    fun k => if k = .screen
      then .one (mkBasicNode "myScreen" (some "Non_Existing_Element"))
      else .absent⟩

/-- A well-formed two-element document. -/
def okDoc : Document :=
  ⟨"Ok", some exStart,
    fun k => if k = .screen then .one (mkBasicNode "myScreen" none) else .absent⟩

/-- A document with a single bare assignment occurrence. -/
def oneAssignmentDoc : Document :=
  ⟨"One", some exStartBare,
    fun k => if k = .assignment then .one (mkBasicNode "myAssignment" none) else .absent⟩

theorem generateFlowDefinition_requires_start_witness :
    generateFlowDefinition noStartDoc = .error .flowStartNotDefined ∧
    noStartDoc.start = none :=
  ⟨(generateFlowDefinition_requires_start noStartDoc).1 rfl, rfl⟩

theorem generateFlowDefinition_normalizes_cardinality_witness :
    generateFlowDefinition oneAssignmentDoc =
      generateFlowDefinition
        { oneAssignmentDoc with elements := fun k2 =>
            (if k2 = NodeKind.assignment
              then OneOrMany.many [mkBasicNode "myAssignment" none]
              else oneAssignmentDoc.elements k2) } ∧
    oneAssignmentDoc.elements NodeKind.assignment =
      .one (mkBasicNode "myAssignment" none) :=
  ⟨generateFlowDefinition_normalizes_cardinality oneAssignmentDoc
      NodeKind.assignment (mkBasicNode "myAssignment" none) rfl, rfl⟩

theorem generateFlowDefinition_resolution_witness :
    generateFlowDefinition badTargetDoc =
      .error (.couldNotFindConnectedNode "Non_Existing_Element") ∧
    (lookupA "myScreen"
        (⟨"Ok", exStart, normalize okDoc, buildIndex exStart (docArrays okDoc),
          [⟨FLOW_START, "myScreen", false, none⟩]⟩ : ParsedFlowP).nameToNode).isSome
      = true := by
  constructor
  · exact (generateFlowDefinition_resolution badTargetDoc).1 exStart
      "Non_Existing_Element" rfl (by decide) (by decide)
  · have h := (generateFlowDefinition_resolution okDoc).2
      ⟨"Ok", exStart, normalize okDoc, buildIndex exStart (docArrays okDoc),
        [⟨FLOW_START, "myScreen", false, none⟩]⟩ rfl
      ⟨FLOW_START, "myScreen", false, none⟩ (by decide)
    exact h.1

end Parsing

/-! ## The abstract UML generator (`uml_generator.ts`)

`UmlGenerator.generateUml` walks one `ParsedFlow` and renders it through
four strategy primitives.  `flow_types.ts` is missing from the sources, so
the node record shapes below are modelled from the fields the generator
reads (and from the fixtures of the generator's test suite); the rendering
logic itself is embedded from `uml_generator.ts`.  The only operation in the
walk that could raise at runtime is the unguarded `rule.conditions.map`
inside the Decision handler, so the embedding returns `Except Unit String`
with exactly that dereference made explicit. -/

namespace Render

def EOL : String := "\n"

/-- JavaScript truthiness of an optional string field: absent and the empty
string are falsy. -/
def optTruthy : Option String → Bool
  | none => false
  | some s => !(s == "")

/-- Modelled from the spec: `FlowElementReferenceOrValue` of the missing
`flow_types.ts`, with every member the XML deserializer's string form. -/
structure FlowElementReferenceOrValue where
  apexValue : Option String
  booleanValue : Option String
  dateTimeValue : Option String
  dateValue : Option String
  elementReference : Option String
  formulaDataType : Option String
  formulaExpression : Option String
  numberValue : Option String
  setupReference : Option String
  sobjectValue : Option String
  stringValue : Option String
  transformValueReference : Option String
deriving DecidableEq

/-- A reference-or-value none of whose members is set. -/
def emptyValue : FlowElementReferenceOrValue :=
  ⟨none, none, none, none, none, none, none, none, none, none, none, none⟩

/-- The first non-nullish of two optional values (`??`). -/
def coalesce (a b : Option String) : Option String :=
  match a with
  | some v => some v
  | none => b

/-- `toString` of `uml_generator.ts`: pick the display text of a
reference-or-value.  The locale-dependent rendering of
`new Date(v).toLocaleDateString()` is abstracted as the parameter `ld`. -/
def toStr (ld : String → String) : Option FlowElementReferenceOrValue → String
  | none => ""
  | some el =>
      if optTruthy el.apexValue || optTruthy el.elementReference ||
          optTruthy el.formulaExpression || optTruthy el.setupReference ||
          optTruthy el.sobjectValue || optTruthy el.stringValue ||
          optTruthy el.transformValueReference || optTruthy el.formulaDataType then
        (coalesce el.stringValue (coalesce el.sobjectValue (coalesce el.apexValue
          (coalesce el.elementReference (coalesce el.formulaExpression
            (coalesce el.setupReference (coalesce el.transformValueReference
              el.formulaDataType))))))).getD ""
      else if optTruthy el.dateTimeValue then ld (el.dateTimeValue.getD "")
      else if optTruthy el.dateValue then ld (el.dateValue.getD "")
      else if optTruthy el.numberValue then el.numberValue.getD ""
      else match el.booleanValue with
        | some b => b
        | none => ""

inductive SkinColor where
  | NONE
  | PINK
  | ORANGE
  | NAVY
  | BLUE
deriving DecidableEq

inductive Icon where
  | ASSIGNMENT
  | CODE
  | CREATE_RECORD
  | DECISION
  | DELETE
  | LOOKUP
  | LOOP
  | NONE
  | RIGHT
  | SCREEN
  | STAGE_STEP
  | UPDATE
  | WAIT
  | ERROR
deriving DecidableEq

/-- `InnerNode` of `uml_generator.ts`. -/
structure InnerNode where
  id : String
  type : String
  label : String
  content : List String
deriving DecidableEq

/-- `DiagramNode` of `uml_generator.ts`. -/
structure DiagramNode where
  id : String
  label : String
  type : String
  color : SkinColor
  icon : Icon
  diffStatus : Option DiffStatus
  innerNodes : Option (List InnerNode)
deriving DecidableEq

/-- Modelled from the spec: the common shape of the node kinds the generator
renders with nothing but name, label and diff status. -/
structure SimpleNode where
  name : String
  label : String
  diffStatus : Option DiffStatus
deriving DecidableEq

/-- The string value of `FlowAssignmentOperator.ASSIGN`. -/
def operatorASSIGN : String := "Assign"

structure FlowAssignmentItem where
  assignToReference : String
  operator : String
  value : Option FlowElementReferenceOrValue
deriving DecidableEq

structure FlowAssignment where
  name : String
  label : String
  diffStatus : Option DiffStatus
  assignmentItems : Option (List FlowAssignmentItem)
deriving DecidableEq

structure FlowCondition where
  leftValueReference : String
  operator : String
  rightValue : Option FlowElementReferenceOrValue
deriving DecidableEq

/-- Modelled from the spec: a Decision rule.  `conditions` is optional here
because the renderer dereferences it without a guard — a missing condition
list is exactly the one malformation the rendering walk cannot survive. -/
structure FlowRule where
  name : String
  label : String
  conditionLogic : String
  conditions : Option (List FlowCondition)
deriving DecidableEq

structure FlowDecision where
  name : String
  label : String
  diffStatus : Option DiffStatus
  rules : Option (List FlowRule)
deriving DecidableEq

structure FlowStageStep where
  actionName : String
  label : String
deriving DecidableEq

structure FlowOrchestratedStage where
  name : String
  label : String
  diffStatus : Option DiffStatus
  stageSteps : Option (List FlowStageStep)
deriving DecidableEq

structure FlowRecordFilter where
  field : String
  operator : String
  value : Option FlowElementReferenceOrValue
deriving DecidableEq

structure FlowRecordLookup where
  name : String
  label : String
  diffStatus : Option DiffStatus
  object : String
  queriedFields : Option (List String)
  filterLogic : Option String
  filters : Option (List FlowRecordFilter)
  getFirstRecordOnly : Option Bool
  limit : Option String
deriving DecidableEq

structure FlowInputAssignment where
  field : String
  value : Option FlowElementReferenceOrValue
deriving DecidableEq

structure FlowRecordUpdate where
  name : String
  label : String
  diffStatus : Option DiffStatus
  object : String
  filters : Option (List FlowRecordFilter)
  inputAssignments : Option (List FlowInputAssignment)
  inputReference : Option String
deriving DecidableEq

structure FlowCustomErrorMessage where
  errorMessage : String
  fieldSelection : Option String
deriving DecidableEq

structure FlowCustomError where
  name : String
  label : String
  diffStatus : Option DiffStatus
  description : Option String
  customErrorMessages : Option (List FlowCustomErrorMessage)
deriving DecidableEq

structure FlowSchedule where
  frequency : String
  startDate : String
  startTime : String
deriving DecidableEq

structure FlowCapability where
  capabilityName : String
deriving DecidableEq

/-- Modelled from the spec: the Start element fields the entry-criteria
block reads. -/
structure FlowStart where
  triggerType : Option String
  object : Option String
  recordTriggerType : Option String
  entryType : Option String
  filterLogic : Option String
  filters : Option (List FlowRecordFilter)
  filterFormula : Option String
  schedule : Option FlowSchedule
  capabilityTypes : Option (List FlowCapability)
  form : Option String
  segment : Option String
  flowRunAsUser : Option String
  diffStatus : Option DiffStatus
deriving DecidableEq

/-- Modelled from the spec: the `ParsedFlow` fields `generateUml` reads. -/
structure ParsedFlowG where
  label : Option String
  processType : Option String
  start : Option FlowStart
  apexPluginCalls : Option (List SimpleNode)
  assignments : Option (List FlowAssignment)
  collectionProcessors : Option (List SimpleNode)
  decisions : Option (List FlowDecision)
  loops : Option (List SimpleNode)
  orchestratedStages : Option (List FlowOrchestratedStage)
  recordCreates : Option (List SimpleNode)
  recordDeletes : Option (List SimpleNode)
  recordLookups : Option (List FlowRecordLookup)
  recordRollbacks : Option (List SimpleNode)
  recordUpdates : Option (List FlowRecordUpdate)
  screens : Option (List SimpleNode)
  steps : Option (List SimpleNode)
  subflows : Option (List SimpleNode)
  transforms : Option (List SimpleNode)
  waits : Option (List SimpleNode)
  actionCalls : Option (List SimpleNode)
  customErrors : Option (List FlowCustomError)
  transitions : Option (List Transition)

/-- The four abstract primitives a concrete rendering strategy implements.
`getHeader` receives `parsedFlow.label`, which may be absent despite the
source's non-null assertion (at runtime `undefined` is simply passed on). -/
structure Strategy where
  getHeader : Option String → String
  toUmlString : DiagramNode → String
  getTransition : Transition → String
  getFooter : String

/-- Numbered filter lines: `1. field operator value`. -/
def filterLines (ld : String → String) (filters : List FlowRecordFilter) :
    List String :=
  filters.enum.map fun p =>
    match p with
    | (i, f) => s!"{i + 1}. {f.field} {f.operator} {toStr ld f.value}"

/-- The fallback line of the Start node's entry-criteria block. -/
def NO_CRITERIA : String := "No specific entry criteria defined"

/-- The entry-criteria lines pushed by `getFlowStart` before its fallback
check, in source order: process type, trigger type, object, record trigger,
entry type, filter logic with numbered filters (only when `filterLogic` is
truthy and `filters` is a nonempty array), filter formula, schedule,
capabilities (only when nonempty), form, segment, run-as-user. -/
def startEntryCriteriaCore (ld : String → String) (pf : ParsedFlowG)
    (start : FlowStart) : List String :=
  (if optTruthy pf.processType then
      let v := pf.processType.getD ""
      [s!"Process Type: {v}"]
    else []) ++
  (if optTruthy start.triggerType then
      let v := start.triggerType.getD ""
      [s!"Trigger Type: {v}"]
    else []) ++
  (if optTruthy start.object then
      let v := start.object.getD ""
      [s!"Object: {v}"]
    else []) ++
  (if optTruthy start.recordTriggerType then
      let v := start.recordTriggerType.getD ""
      [s!"Record Trigger: {v}"]
    else []) ++
  (if optTruthy start.entryType then
      let v := start.entryType.getD ""
      [s!"Entry Type: {v}"]
    else []) ++
  (if optTruthy start.filterLogic && start.filters.isSome &&
      decide ((start.filters.getD []).length > 0) then
      let v := start.filterLogic.getD ""
      s!"Filter Logic: {v}" :: filterLines ld (start.filters.getD [])
    else []) ++
  (if optTruthy start.filterFormula then
      let v := start.filterFormula.getD ""
      [s!"Filter Formula: {v}"]
    else []) ++
  (match start.schedule with
   | none => []
   | some sc => [s!"Schedule: {sc.frequency} starting {sc.startDate} at {sc.startTime}"]) ++
  (if start.capabilityTypes.isSome &&
      decide ((start.capabilityTypes.getD []).length > 0) then
      (start.capabilityTypes.getD []).enum.map fun p =>
        match p with
        | (i, c) => s!"Capability {i + 1}: {c.capabilityName}"
    else []) ++
  (if optTruthy start.form then
      let v := start.form.getD ""
      [s!"Form: {v}"]
    else []) ++
  (if optTruthy start.segment then
      let v := start.segment.getD ""
      [s!"Segment: {v}"]
    else []) ++
  (if optTruthy start.flowRunAsUser then
      let v := start.flowRunAsUser.getD ""
      [s!"Run As: {v}"]
    else [])

/-- The entry-criteria block: the pushed lines, or the single fallback line
when none was pushed (`entryCriteria.length === 0`). -/
def startEntryCriteria (ld : String → String) (pf : ParsedFlowG)
    (start : FlowStart) : List String :=
  let c := startEntryCriteriaCore ld pf start
  if c.isEmpty then [NO_CRITERIA] else c

/-- `getFlowStart`: nothing when the flow has no start; otherwise the
rendered `FLOW_START` diagram node with its entry-criteria detail block. -/
def getFlowStart (ld : String → String) (s : Strategy) (pf : ParsedFlowG) : String :=
  match pf.start with
  | none => ""
  | some start =>
      s.toUmlString ⟨"FLOW_START", "Flow Start", "Flow Start", .NONE, .NONE,
        start.diffStatus,
        some [⟨"FlowStart__EntryCriteria", "Flow Details", "",
          startEntryCriteria ld pf start⟩]⟩

def getFlowApexPluginCall (s : Strategy) (n : SimpleNode) : String :=
  s.toUmlString ⟨n.name, n.label, "Apex Plugin Call", .NONE, .CODE, n.diffStatus, none⟩

def getFlowAssignmentInnerNodes (ld : String → String) (n : FlowAssignment) :
    List InnerNode :=
  match n.assignmentItems with
  | none => []
  | some items =>
      let assignments := items.map fun item =>
        let op := if item.operator == operatorASSIGN then "=" else item.operator
        s!"{item.assignToReference} {op} {toStr ld item.value}"
      [⟨s!"{n.name}__Assignments", "", "", assignments⟩]

def getFlowAssignment (ld : String → String) (s : Strategy) (n : FlowAssignment) : String :=
  s.toUmlString ⟨n.name, n.label, "Assignment", .ORANGE, .ASSIGNMENT, n.diffStatus,
    some (getFlowAssignmentInnerNodes ld n)⟩

def getFlowCollectionProcessor (s : Strategy) (n : SimpleNode) : String :=
  s.toUmlString ⟨n.name, n.label, "Collection Processor", .NONE, .LOOP, n.diffStatus, none⟩

/-- The Decision detail blocks.  `rule.conditions.map` is unguarded in the
source, so a rule without a condition list is the one input on which the
walk raises (`.error ()`). -/
def getFlowDecisionInnerNodes (ld : String → String) (n : FlowDecision) :
    Except Unit (List InnerNode) :=
  match n.rules with
  | none => .ok []
  | some rules =>
      rules.mapM fun rule =>
        match rule.conditions with
        | none => .error ()
        | some conds =>
            let conditions := conds.enum.map fun p =>
              match p with
              | (i, c) =>
                  s!"{i + 1}. {c.leftValueReference} {c.operator} {toStr ld c.rightValue}"
            let conditions := if conditions.length > 1 then
                conditions ++ [s!"Logic: {rule.conditionLogic}"]
              else conditions
            .ok ⟨rule.name, "Rule", rule.label, conditions⟩

def getFlowDecision (ld : String → String) (s : Strategy) (n : FlowDecision) :
    Except Unit String := do
  let inner ← getFlowDecisionInnerNodes ld n
  .ok (s.toUmlString ⟨n.name, n.label, "Decision", .ORANGE, .DECISION, n.diffStatus,
    some inner⟩)

def getFlowLoop (s : Strategy) (n : SimpleNode) : String :=
  s.toUmlString ⟨n.name, n.label, "Loop", .ORANGE, .LOOP, n.diffStatus, none⟩

def getFlowOrchestratedStageInnerNodes (n : FlowOrchestratedStage) : List InnerNode :=
  match n.stageSteps with
  | none => []
  | some steps =>
      steps.enum.map fun p =>
        match p with
        | (i, step) => ⟨s!"{n.name}.{step.actionName}", "Step", s!"{i + 1}. {step.label}", []⟩

def getFlowOrchestratedStage (s : Strategy) (n : FlowOrchestratedStage) : String :=
  s.toUmlString ⟨n.name, n.label, "Orchestrated Stage", .NAVY, .RIGHT, n.diffStatus,
    some (getFlowOrchestratedStageInnerNodes n)⟩

def getFlowRecordCreate (s : Strategy) (n : SimpleNode) : String :=
  s.toUmlString ⟨n.name, n.label, "Record Create", .PINK, .CREATE_RECORD, n.diffStatus, none⟩

def getFlowRecordDelete (s : Strategy) (n : SimpleNode) : String :=
  s.toUmlString ⟨n.name, n.label, "Record Delete", .PINK, .DELETE, n.diffStatus, none⟩

def getFieldsQueried (n : FlowRecordLookup) : List String :=
  if n.queriedFields.isSome && decide ((n.queriedFields.getD []).length > 0) then
    ["Fields Queried:", String.intercalate ", " (n.queriedFields.getD [])]
  else ["Fields Queried: all"]

def getFilterCriteria (ld : String → String) (n : FlowRecordLookup) : List String :=
  let logicText := if optTruthy n.filterLogic then n.filterLogic.getD "" else "None"
  s!"Filter Logic: {logicText}" ::
    (match n.filters with
     | none => []
     | some fs => filterLines ld fs)

def getLimit (n : FlowRecordLookup) : String :=
  if n.getFirstRecordOnly == some true then "Limit: First Record Only"
  else if optTruthy n.limit then
    let v := n.limit.getD ""
    s!"Limit: {v}"
  else "Limit: All Records"

def getFlowRecordLookupInnerNodes (ld : String → String) (n : FlowRecordLookup) :
    List InnerNode :=
  let innerNodeContent := getFieldsQueried n ++ getFilterCriteria ld n ++
    (let lim := getLimit n
     if lim == "" then [] else [lim])
  [⟨s!"{n.name}__LookupDetails", s!"sObject: {n.object}", "", innerNodeContent⟩]

def getFlowRecordLookup (ld : String → String) (s : Strategy) (n : FlowRecordLookup) : String :=
  s.toUmlString ⟨n.name, n.label, "Record Lookup", .PINK, .LOOKUP, n.diffStatus,
    some (getFlowRecordLookupInnerNodes ld n)⟩

def getFlowRecordRollback (s : Strategy) (n : SimpleNode) : String :=
  s.toUmlString ⟨n.name, n.label, "Record Rollback", .PINK, .NONE, n.diffStatus, none⟩

def getFlowRecordUpdateInnerNodes (ld : String → String) (n : FlowRecordUpdate) :
    List InnerNode :=
  let innerNodeContent :=
    (if n.filters.isSome && decide ((n.filters.getD []).length > 0) then
        "Filter Criteria:" :: filterLines ld (n.filters.getD [])
      else []) ++
    (if n.inputAssignments.isSome && decide ((n.inputAssignments.getD []).length > 0) then
        "Field Updates:" ::
          (n.inputAssignments.getD []).map fun a => s!"{a.field} = {toStr ld a.value}"
      else [])
  let typeText := if optTruthy n.inputReference then "Reference Update" else "Direct Update"
  let labelText := if optTruthy n.inputReference then n.inputReference.getD ""
    else s!"sObject: {n.object}"
  [⟨s!"{n.name}__UpdateDetails", typeText, labelText, innerNodeContent⟩]

def getFlowRecordUpdate (ld : String → String) (s : Strategy) (n : FlowRecordUpdate) : String :=
  s.toUmlString ⟨n.name, n.label, "Record Update", .PINK, .UPDATE, n.diffStatus,
    some (getFlowRecordUpdateInnerNodes ld n)⟩

def getFlowScreen (s : Strategy) (n : SimpleNode) : String :=
  s.toUmlString ⟨n.name, n.label, "Screen", .BLUE, .SCREEN, n.diffStatus, none⟩

def getFlowStep (s : Strategy) (n : SimpleNode) : String :=
  s.toUmlString ⟨n.name, n.label, "Step", .NONE, .STAGE_STEP, n.diffStatus, none⟩

def getFlowSubflow (s : Strategy) (n : SimpleNode) : String :=
  s.toUmlString ⟨n.name, n.label, "Subflow", .NAVY, .RIGHT, n.diffStatus, none⟩

def getFlowTransform (s : Strategy) (n : SimpleNode) : String :=
  s.toUmlString ⟨n.name, n.label, "Transform", .NONE, .CODE, n.diffStatus, none⟩

def getFlowWait (s : Strategy) (n : SimpleNode) : String :=
  s.toUmlString ⟨n.name, n.label, "Wait", .NONE, .WAIT, n.diffStatus, none⟩

def getFlowActionCall (s : Strategy) (n : SimpleNode) : String :=
  s.toUmlString ⟨n.name, n.label, "Action Call", .NAVY, .CODE, n.diffStatus, none⟩

def getFlowCustomErrorInnerNodes (n : FlowCustomError) : List InnerNode :=
  let innerNodeContent :=
    if n.customErrorMessages.isSome &&
        decide ((n.customErrorMessages.getD []).length > 0) then
      (n.customErrorMessages.getD []).enum.map fun p =>
        match p with
        | (i, message) =>
            let fieldInfo := match message.fieldSelection with
              | some fs => if fs == "" then "" else s!" (Field: {fs})"
              | none => ""
            s!"{i + 1}. {message.errorMessage}{fieldInfo}"
    else []
  let typeText := if optTruthy n.description then n.description.getD ""
    else "Custom Error Details"
  [⟨s!"{n.name}__ErrorDetails", typeText, "Error Messages:", innerNodeContent⟩]

def getFlowCustomError (s : Strategy) (n : FlowCustomError) : String :=
  s.toUmlString ⟨n.name, n.label, "Custom Error", .NAVY, .ERROR, n.diffStatus,
    some (getFlowCustomErrorInnerNodes n)⟩

/-- `processFlowElements`: map the per-kind handler over a collection and
join with newlines; an absent collection renders as the empty string. -/
def processFlowElements {α : Type} (elements : Option (List α))
    (elementProcessor : α → String) : String :=
  match elements with
  | none => ""
  | some l => String.intercalate EOL (l.map elementProcessor)

/-- `processFlowElements` for the Decision handler, which can raise. -/
def processFlowElementsE {α : Type} (elements : Option (List α))
    (elementProcessor : α → Except Unit String) : Except Unit String :=
  match elements with
  | none => .ok ""
  | some l => do
      let xs ← l.mapM elementProcessor
      .ok (String.intercalate EOL xs)

def processTransitions (s : Strategy) (transitions : Option (List Transition)) : String :=
  match transitions with
  | none => ""
  | some ts => String.intercalate EOL (ts.map s.getTransition)

/-- `generateUml`: header, start block, the seventeen per-kind sections in
source order, transitions, footer; empty sections are dropped from the
newline join.  The Decision section's possible failure is sequenced first
(it is the only effect). -/
def generateUml (ld : String → String) (s : Strategy) (pf : ParsedFlowG) :
    Except Unit String := do
  let decisionsPart ← processFlowElementsE pf.decisions (getFlowDecision ld s)
  let result := [
    s.getHeader pf.label,
    getFlowStart ld s pf,
    processFlowElements pf.apexPluginCalls (getFlowApexPluginCall s),
    processFlowElements pf.assignments (getFlowAssignment ld s),
    processFlowElements pf.collectionProcessors (getFlowCollectionProcessor s),
    decisionsPart,
    processFlowElements pf.loops (getFlowLoop s),
    processFlowElements pf.orchestratedStages (getFlowOrchestratedStage s),
    processFlowElements pf.recordCreates (getFlowRecordCreate s),
    processFlowElements pf.recordDeletes (getFlowRecordDelete s),
    processFlowElements pf.recordLookups (getFlowRecordLookup ld s),
    processFlowElements pf.recordRollbacks (getFlowRecordRollback s),
    processFlowElements pf.recordUpdates (getFlowRecordUpdate ld s),
    processFlowElements pf.screens (getFlowScreen s),
    processFlowElements pf.steps (getFlowStep s),
    processFlowElements pf.subflows (getFlowSubflow s),
    processFlowElements pf.transforms (getFlowTransform s),
    processFlowElements pf.waits (getFlowWait s),
    processFlowElements pf.actionCalls (getFlowActionCall s),
    processFlowElements pf.customErrors (getFlowCustomError s),
    processTransitions s pf.transitions,
    s.getFooter]
  .ok (String.intercalate EOL (result.filter fun element => element ≠ ""))

/-- Well-formedness over the declared data model: every Decision rule
carries its (required) condition list. -/
def rulesWellFormed (pf : ParsedFlowG) : Bool :=
  match pf.decisions with
  | none => true
  | some ds =>
      ds.all fun d =>
        match d.rules with
        | none => true
        | some rs => rs.all fun r => r.conditions.isSome

/-! ### Totality of the rendering walk -/

theorem bind_ok_red {α β : Type} (b : α) (g : α → Except Unit β) :
    (Except.ok b >>= g) = g b := rfl

theorem mapM_ok {α β : Type} (f : α → Except Unit β) :
    ∀ (l : List α), (∀ a ∈ l, ∃ b, f a = .ok b) → ∃ bs, l.mapM f = .ok bs := by
  intro l
  induction l with
  | nil => intro _; exact ⟨[], rfl⟩
  | cons a l ih =>
      intro h
      obtain ⟨b, hb⟩ := h a (List.mem_cons_self _ _)
      obtain ⟨bs, hbs⟩ := ih fun a1 h1 => h a1 (List.mem_cons_of_mem _ h1)
      refine ⟨b :: bs, ?_⟩
      rw [List.mapM_cons, hb, bind_ok_red, hbs, bind_ok_red]
      rfl

/-- `Except` success as a Boolean. -/
def isOkB {β : Type} : Except Unit β → Bool
  | .ok _ => true
  | .error _ => false

theorem exists_ok {β : Type} {e : Except Unit β} (h : isOkB e = true) :
    ∃ b, e = .ok b := by
  cases e with
  | ok b => exact ⟨b, rfl⟩
  | error err => simp [isOkB] at h

theorem getFlowDecision_ok (ld : String → String) (s : Strategy) (d : FlowDecision)
    (h : (match d.rules with
          | none => true
          | some rs => rs.all fun r => r.conditions.isSome) = true) :
    ∃ v, getFlowDecision ld s d = .ok v := by
  have hinner : ∃ inner, getFlowDecisionInnerNodes ld d = .ok inner := by
    cases hr : d.rules with
    | none => exact ⟨[], by simp [getFlowDecisionInnerNodes, hr]⟩
    | some rs =>
        simp only [hr] at h
        have hall := List.all_eq_true.mp h
        simp only [getFlowDecisionInnerNodes, hr]
        apply mapM_ok
        intro rule hrule
        have hc := hall rule hrule
        simp only [Option.isSome_iff_exists] at hc
        obtain ⟨conds, hconds⟩ := hc
        apply exists_ok
        simp only [hconds]
        rfl
  obtain ⟨inner, hi⟩ := hinner
  apply exists_ok
  unfold getFlowDecision
  rw [hi, bind_ok_red]
  rfl

theorem processDecisions_ok (ld : String → String) (s : Strategy) (pf : ParsedFlowG)
    (h : rulesWellFormed pf = true) :
    ∃ v, processFlowElementsE pf.decisions (getFlowDecision ld s) = .ok v := by
  cases hd : pf.decisions with
  | none => exact ⟨"", by simp [processFlowElementsE, hd]⟩
  | some ds =>
      simp only [rulesWellFormed, hd] at h
      have hall := List.all_eq_true.mp h
      obtain ⟨bs, hbs⟩ := mapM_ok (getFlowDecision ld s) ds
        (fun d hdm => getFlowDecision_ok ld s d (hall d hdm))
      apply exists_ok
      simp only [processFlowElementsE, hd]
      rw [hbs, bind_ok_red]
      rfl

/-- C5: the rendering walk is total — for every parsed flow that is
well-formed over the declared data model (every Decision rule carries its
condition list) and every rendering strategy, `generateUml` returns a
string and never raises. -/
theorem generateUml_never_raises (ld : String → String) (s : Strategy)
    (pf : ParsedFlowG) (h : rulesWellFormed pf = true) :
    ∃ out : String, generateUml ld s pf = .ok out := by
  obtain ⟨v, hv⟩ := processDecisions_ok ld s pf h
  apply exists_ok
  unfold generateUml
  rw [hv, bind_ok_red]
  rfl

/-! ### Concrete flows exercising the renderer -/

def emptyStart : FlowStart :=
  ⟨none, none, none, none, none, none, none, none, none, none, none, none, none⟩

/-- A minimal concrete strategy (labels and ids only). -/
def testStrategy : Strategy :=
  ⟨fun l => l.getD "",
   fun nd => s!"state {nd.type} {nd.id}",
   fun t => s!"{t.src} to {t.dst}",
   ""⟩

def startOnlyFlow : ParsedFlowG :=
  ⟨some "Start Only", none, some emptyStart, none, none, none, none, none, none,
   none, none, none, none, none, none, none, none, none, none, none, none, none⟩

def loopNodeEx : SimpleNode := ⟨"myLoop", "myLoop", none⟩

/-- A flow whose loop transitions to itself, labelled "for each". -/
def cyclicFlow : ParsedFlowG :=
  { startOnlyFlow with
    label := some "Circular",
    loops := some [loopNodeEx],
    transitions := some [⟨"FLOW_START", "myLoop", false, none⟩,
      ⟨"myLoop", "myLoop", false, some "for each"⟩] }

theorem generateUml_never_raises_witness :
    (∃ out, generateUml id testStrategy startOnlyFlow = .ok out) ∧
    (∃ out, generateUml id testStrategy cyclicFlow = .ok out) :=
  ⟨generateUml_never_raises id testStrategy startOnlyFlow rfl,
   generateUml_never_raises id testStrategy cyclicFlow rfl⟩

/-! ### The entry-criteria fallback -/

/-- The populated-field conditions under which `getFlowStart` pushes at
least one entry-criteria line, in source order. -/
def startCriteriaPopulated (pf : ParsedFlowG) (start : FlowStart) : Bool :=
  optTruthy pf.processType || optTruthy start.triggerType || optTruthy start.object ||
  optTruthy start.recordTriggerType || optTruthy start.entryType ||
  (optTruthy start.filterLogic && start.filters.isSome &&
    decide ((start.filters.getD []).length > 0)) ||
  optTruthy start.filterFormula || start.schedule.isSome ||
  (start.capabilityTypes.isSome && decide ((start.capabilityTypes.getD []).length > 0)) ||
  optTruthy start.form || optTruthy start.segment || optTruthy start.flowRunAsUser

theorem startEntryCriteriaCore_eq_nil_iff (ld : String → String)
    (pf : ParsedFlowG) (start : FlowStart) :
    startEntryCriteriaCore ld pf start = [] ↔
      startCriteriaPopulated pf start = false := by
  constructor
  · intro h
    simp only [startEntryCriteriaCore, List.append_eq_nil] at h
    obtain ⟨⟨⟨⟨⟨⟨⟨⟨⟨⟨⟨h1, h2⟩, h3⟩, h4⟩, h5⟩, h6⟩, h7⟩, h8⟩, h9⟩, h10⟩, h11⟩, h12⟩ := h
    have e1 : optTruthy pf.processType = false := by
      revert h1
      cases optTruthy pf.processType
      · intro _; rfl
      · intro h1; simp at h1
    have e2 : optTruthy start.triggerType = false := by
      revert h2
      cases optTruthy start.triggerType
      · intro _; rfl
      · intro h2; simp at h2
    have e3 : optTruthy start.object = false := by
      revert h3
      cases optTruthy start.object
      · intro _; rfl
      · intro h3; simp at h3
    have e4 : optTruthy start.recordTriggerType = false := by
      revert h4
      cases optTruthy start.recordTriggerType
      · intro _; rfl
      · intro h4; simp at h4
    have e5 : optTruthy start.entryType = false := by
      revert h5
      cases optTruthy start.entryType
      · intro _; rfl
      · intro h5; simp at h5
    have e6 : (optTruthy start.filterLogic && start.filters.isSome &&
        decide ((start.filters.getD []).length > 0)) = false := by
      revert h6
      cases optTruthy start.filterLogic && start.filters.isSome &&
          decide ((start.filters.getD []).length > 0)
      · intro _; rfl
      · intro h6; simp at h6
    have e7 : optTruthy start.filterFormula = false := by
      revert h7
      cases optTruthy start.filterFormula
      · intro _; rfl
      · intro h7; simp at h7
    have e8 : start.schedule.isSome = false := by
      revert h8
      cases start.schedule with
      | none => intro _; rfl
      | some sc => intro h8; simp at h8
    have e9 : (start.capabilityTypes.isSome &&
        decide ((start.capabilityTypes.getD []).length > 0)) = false := by
      rcases Bool.eq_false_or_eq_true (start.capabilityTypes.isSome &&
          decide ((start.capabilityTypes.getD []).length > 0)) with hx | hx
      · exfalso
        rw [hx, if_pos rfl] at h9
        obtain ⟨hs, hlen⟩ := Bool.and_eq_true_iff.mp hx
        have hlen2 := of_decide_eq_true hlen
        have hl := congrArg List.length h9
        simp only [List.length_map, List.enum_length, List.length_nil] at hl
        omega
      · exact hx
    have e10 : optTruthy start.form = false := by
      revert h10
      cases optTruthy start.form
      · intro _; rfl
      · intro h10; simp at h10
    have e11 : optTruthy start.segment = false := by
      revert h11
      cases optTruthy start.segment
      · intro _; rfl
      · intro h11; simp at h11
    have e12 : optTruthy start.flowRunAsUser = false := by
      revert h12
      cases optTruthy start.flowRunAsUser
      · intro _; rfl
      · intro h12; simp at h12
    simp [startCriteriaPopulated, e1, e2, e3, e4, e5, e6, e7, e8, e9, e10, e11, e12]
  · intro h
    simp only [startCriteriaPopulated, Bool.or_eq_false_iff] at h
    obtain ⟨⟨⟨⟨⟨⟨⟨⟨⟨⟨⟨h1, h2⟩, h3⟩, h4⟩, h5⟩, h6⟩, h7⟩, h8⟩, h9⟩, h10⟩, h11⟩, h12⟩ := h
    have e8 : start.schedule = none := by
      revert h8
      cases start.schedule with
      | none => intro _; rfl
      | some sc => intro h8; cases h8
    simp [startEntryCriteriaCore, h1, h2, h3, h4, h5, h6, h7, e8, h9, h10, h11, h12]

/-- C8 (amended): when none of the entry-criteria conditions is populated in
the form the renderer recognizes, the entry-criteria block is exactly the
one fallback line and `getFlowStart` renders the Start node with that
single-line detail block; when any condition is populated in that form (for
filters this requires `filterLogic` to be set alongside a nonempty filter
array, for capabilities a nonempty list), the fallback line is not emitted —
the block is exactly the pushed lines, which are nonempty. -/
theorem startEntryCriteria_fallback (ld : String → String) (s : Strategy)
    (pf : ParsedFlowG) (start : FlowStart) :
    (startCriteriaPopulated pf start = false →
        startEntryCriteria ld pf start = [NO_CRITERIA] ∧
        (pf.start = some start →
            getFlowStart ld s pf = s.toUmlString ⟨"FLOW_START", "Flow Start",
              "Flow Start", .NONE, .NONE, start.diffStatus,
              some [⟨"FlowStart__EntryCriteria", "Flow Details", "",
                [NO_CRITERIA]⟩]⟩)) ∧
    (startCriteriaPopulated pf start = true →
        startEntryCriteria ld pf start = startEntryCriteriaCore ld pf start ∧
        startEntryCriteriaCore ld pf start ≠ []) := by
  constructor
  · intro h
    have hc : startEntryCriteriaCore ld pf start = [] :=
      (startEntryCriteriaCore_eq_nil_iff ld pf start).mpr h
    have hec : startEntryCriteria ld pf start = [NO_CRITERIA] := by
      simp [startEntryCriteria, hc]
    refine ⟨hec, fun hst => ?_⟩
    simp only [getFlowStart, hst, hec]
  · intro h
    have hc : startEntryCriteriaCore ld pf start ≠ [] := by
      intro hx
      have := (startEntryCriteriaCore_eq_nil_iff ld pf start).mp hx
      rw [this] at h
      cases h
    refine ⟨?_, hc⟩
    cases he : (startEntryCriteriaCore ld pf start).isEmpty
    · simp [startEntryCriteria, he]
    · exact absurd (List.isEmpty_iff.mp he) hc

/-- The claim's unrestricted form fails: a Start node whose `filters` array
is populated but whose `filterLogic` is absent produces no entry-criteria
line, so the fallback line is still emitted. -/
def c8FilterValue : FlowElementReferenceOrValue :=
  { emptyValue with booleanValue := some "true" }

def c8Filter : FlowRecordFilter := ⟨"Name", "IsNull", some c8FilterValue⟩

def c8Start : FlowStart :=
  ⟨none, none, none, none, none, some [c8Filter], none, none, none, none, none,
   none, none⟩

def c8Flow : ParsedFlowG :=
  { startOnlyFlow with label := some "Filters", start := some c8Start }

theorem startEntryCriteria_populated_filters_cex :
    (c8Start.filters.isSome && decide ((c8Start.filters.getD []).length > 0)) = true ∧
    startEntryCriteria id c8Flow c8Start = [NO_CRITERIA] ∧
    NO_CRITERIA ∈ startEntryCriteria id c8Flow c8Start :=
  ⟨rfl, rfl, by decide⟩

def procTypeFlow : ParsedFlowG := { startOnlyFlow with processType := some "Flow" }

theorem startEntryCriteria_fallback_witness :
    startEntryCriteria id startOnlyFlow emptyStart = [NO_CRITERIA] ∧
    startEntryCriteria id procTypeFlow emptyStart =
      startEntryCriteriaCore id procTypeFlow emptyStart ∧
    startEntryCriteriaCore id procTypeFlow emptyStart ≠ [] := by
  have h1 := (startEntryCriteria_fallback id testStrategy startOnlyFlow emptyStart).1
    (by decide)
  have h2 := (startEntryCriteria_fallback id testStrategy procTypeFlow emptyStart).2
    (by decide)
  exact ⟨h1.1, h2.1, h2.2⟩

end Render

end FlowLens